import Mathlib

/-!
FreeBSD scanner of `vuls` (`scan/freebsd.go`)

A shallow embedding of the text parsers (`parsePkgVersion`, `splitIntoBlocks`,
`parseBlock`) and of the correlation done by `scanUnsecurePackages`, with
theorems about them.

Go strings are modelled as lists of Unicode characters (valid UTF-8 text).
A Go run-time panic (index or slice bound out of range) is modelled by `none`.
-/

set_option autoImplicit false

namespace Vuls

/-- A Go string: a sequence of characters. -/
abbrev Str := List Char

/-! ## The functions of Go's `strings` package used by the scanner -/

/-- Go `unicode.IsSpace`: the characters `strings.Fields` and
`strings.TrimSpace` treat as white space. -/
def isSpace (c : Char) : Bool :=
  let n := c.toNat
  n == 0x09 || n == 0x0A || n == 0x0B || n == 0x0C || n == 0x0D || n == 0x20 ||
  n == 0x85 || n == 0xA0 || n == 0x1680 || (0x2000 ≤ n && n ≤ 0x200A) ||
  n == 0x2028 || n == 0x2029 || n == 0x202F || n == 0x205F || n == 0x3000

/-- Cut a sequence at every element satisfying `p`; the pieces between the
cuts are returned, empty ones included, so the result is never empty. -/
def splitAt {α : Type} (p : α → Bool) : List α → List (List α)
  | [] => [[]]
  | c :: cs =>
    if p c then [] :: splitAt p cs
    else
      match splitAt p cs with
      | [] => [[c]]
      | h :: t => (c :: h) :: t

/-- Go `strings.Split(s, sep)` for a one-character separator (the scanner
only splits on "\n", "-" and "/"). -/
def Split (s : Str) (sep : Char) : List Str :=
  splitAt (fun c => c == sep) s

/-- Go `strings.Fields(s)`: the maximal runs of non-space characters. -/
def Fields (s : Str) : List Str :=
  (splitAt isSpace s).filter (fun f => !f.isEmpty)

/-- Go `strings.Join(elems, sep)`. -/
def Join : List Str → Str → Str
  | [], _ => []
  | [x], _ => x
  | x :: y :: rest, sep => x ++ sep ++ Join (y :: rest) sep

/-- Go `strings.TrimSpace(s)`: leading and trailing white space removed. -/
def TrimSpace (s : Str) : Str :=
  ((s.dropWhile isSpace).reverse.dropWhile isSpace).reverse

/-- Go `strings.HasPrefix(s, prefix)`. -/
def HasPrefix (s pre : Str) : Bool :=
  pre.isPrefixOf s

/-- Go `strings.HasSuffix(s, suffix)`. -/
def HasSuffix (s suf : Str) : Bool :=
  suf.reverse.isPrefixOf s.reverse

/-- Go `strings.TrimSuffix(s, suffix)`: `s` without the given trailing
suffix, or `s` itself when it does not end in it. -/
def TrimSuffix (s suf : Str) : Str :=
  if HasSuffix s suf then s.take (s.length - suf.length) else s

/-- Go slice expression `xs[:len(xs)-1]`; it panics when `xs` is empty. -/
def sliceInit (xs : List Str) : Option (List Str) :=
  if xs.length = 0 then none else some (xs.take (xs.length - 1))

/-- Go index expression `xs[len(xs)-1]`; it panics when `xs` is empty. -/
def indexLast (xs : List Str) : Option Str :=
  if xs.length = 0 then none else xs[xs.length - 1]?

/-! ## Data model -/

/-- The fields of `models.PackageInfo` the scanner sets: an unset Go string
field is the empty string. -/
structure PackageInfo where
  Name : Str
  Version : Str
  NewVersion : Str
  deriving DecidableEq, Repr

/-! ## `parsePkgVersion` -/

/-- One iteration of the loop of `parsePkgVersion` over the line `l`, with
`packs` the records appended so far. -/
def parsePkgVersionStep (packs : List PackageInfo) (l : Str) :
    Option (List PackageInfo) :=
  let fields := Fields l
  if fields.length < 2 then some packs
  else do
    let packVer ← fields[0]?
    let splitted := Split packVer '-'
    let ver ← indexLast splitted
    let pre ← sliceInit splitted
    let name := Join pre "-".toList
    let marker ← fields[1]?
    if marker = "?".toList ∨ marker = "=".toList then
      some (packs ++ [{ Name := name, Version := ver, NewVersion := [] }])
    else if marker = "<".toList then do
      let f6 ← fields[6]?
      let candidate := TrimSuffix f6 ")".toList
      some (packs ++ [{ Name := name, Version := ver, NewVersion := candidate }])
    else some packs

/-- The method `parsePkgVersion`: `none` when an index goes out of range. -/
def parsePkgVersion (stdout : Str) : Option (List PackageInfo) :=
  (Split stdout '\n').foldlM parsePkgVersionStep []

/-! ## `splitIntoBlocks` -/

/-- One iteration of the loop of `splitIntoBlocks`: the state is the pair of
the blocks flushed so far and the lines of the block being accumulated. -/
def splitIntoBlocksStep (st : List Str × List Str) (l : Str) : List Str × List Str :=
  if (TrimSpace l).length = 0 then
    if 0 < st.2.length then (st.1 ++ [Join st.2 "\n".toList], []) else st
  else (st.1, st.2 ++ [TrimSpace l])

/-- The code of `splitIntoBlocks` after its loop: the block being
accumulated, if any, is flushed. -/
def flushBlock (st : List Str × List Str) : List Str :=
  if 0 < st.2.length then st.1 ++ [Join st.2 "\n".toList] else st.1

/-- The method `splitIntoBlocks`. -/
def splitIntoBlocks (stdout : Str) : List Str :=
  flushBlock ((Split stdout '\n').foldl splitIntoBlocksStep ([], []))

/-! ## `parseBlock` -/

/-- The three named results of `parseBlock`. -/
structure BlockResult where
  packName : Str
  cveIDs : List Str
  vulnID : Str
  deriving DecidableEq, Repr

/-- One iteration of the loop of `parseBlock` over the line `l`. -/
def parseBlockStep (st : BlockResult) (l : Str) : Option BlockResult :=
  if HasSuffix l " is vulnerable:".toList then do
    let packVer ← (Fields l)[0]?
    let splitted := Split packVer '-'
    let pre ← sliceInit splitted
    some { st with packName := Join pre "-".toList }
  else if HasPrefix l "CVE:".toList then do
    let cve ← (Fields l)[1]?
    some { st with cveIDs := st.cveIDs ++ [cve] }
  else if HasPrefix l "WWW:".toList then do
    let splitted := Split l '/'
    let last ← indexLast splitted
    some { st with vulnID := TrimSuffix last ".html".toList }
  else some st

/-- The method `parseBlock`: `none` when an index goes out of range. -/
def parseBlock (block : Str) : Option BlockResult :=
  (Split block '\n').foldlM parseBlockStep { packName := [], cveIDs := [], vulnID := [] }

/-! ## `scanUnsecurePackages` -/

/-- The struct `vulnIDCveIDs`. -/
structure vulnIDCveIDs where
  vulnID : Str
  cveIDs : List Str
  deriving DecidableEq, Repr

/-- The struct `pkgAuditResult`. -/
structure pkgAuditResult where
  pack : PackageInfo
  vulnIDCveIDs : vulnIDCveIDs
  deriving DecidableEq, Repr

/-- The field of `models.DistroAdvisory` the scanner sets. -/
structure DistroAdvisory where
  AdvisoryID : Str
  deriving DecidableEq, Repr

/-- A detail record of the external lookup: the scanner reads its `CveID`
only; `Rest` stands for all its other fields. -/
structure CveDetail (δ : Type) where
  CveID : Str
  Rest : δ
  deriving DecidableEq, Repr

/-- The struct `CvePacksInfo`: one entry of the report. -/
structure CvePacksInfo (δ : Type) where
  CveID : Str
  CveDetail : CveDetail δ
  Packs : List PackageInfo
  DistroAdvisories : List DistroAdvisory
  deriving DecidableEq, Repr

/-- The result of a remote command, as far as the scanner reads it. -/
structure sshResult where
  Stdout : Str
  ExitStatus : Int
  deriving DecidableEq, Repr

/-- Modelled from the spec: the method `isSuccess` of the remote-command
result is declared outside `freebsd.go`; an execution counts as successful
when its exit status is one of the expected ones (status 0 when none is
listed). -/
def sshResult.isSuccess (r : sshResult) (expected : List Int) : Bool :=
  if expected.isEmpty then r.ExitStatus == 0 else expected.contains r.ExitStatus

/-- Modelled from the spec: `PackageInfoList.FindByName` is declared outside
`freebsd.go`; the inventory is looked up by package name, and the first
record of that name is the one found. -/
def FindByName (Packages : List PackageInfo) (name : Str) : Option PackageInfo :=
  Packages.find? (fun p => p.Name == name)

/-- The errors `scanUnsecurePackages` can return. -/
inductive ScanError where
  /-- The error "Failed to SSH: ..." for the given command result. -/
  | sshFailed (r : sshResult)
  /-- The error "Vulnerable package: ... is not found" for the given name. -/
  | packageNotFound (name : Str)
  /-- The error of the detail lookup, passed on unchanged. -/
  | lookupFailed (msg : Str)
  deriving DecidableEq, Repr

/-- The first loop of `scanUnsecurePackages`, over the remaining blocks, with
`packAdtRslt` the links appended so far: `none` is a panic of `parseBlock`,
`some (.error e)` the early return with an error. -/
def resolveBlocks (Packages : List PackageInfo) :
    List Str → List pkgAuditResult → Option (Except ScanError (List pkgAuditResult))
  | [], packAdtRslt => some (.ok packAdtRslt)
  | b :: bs, packAdtRslt =>
    match parseBlock b with
    | none => none
    | some r =>
      if r.cveIDs.length = 0 then resolveBlocks Packages bs packAdtRslt
      else
        match FindByName Packages r.packName with
        | none => some (.error (.packageNotFound r.packName))
        | some pack =>
          resolveBlocks Packages bs
            (packAdtRslt ++ [{ pack := pack,
                               vulnIDCveIDs := { vulnID := r.vulnID, cveIDs := r.cveIDs } }])

/-- A Go `map[string][]pkgAuditResult`, its keys kept in first-insertion
order. -/
abbrev CveMap := List (Str × List pkgAuditResult)

/-- Go `m[k]`: the zero value (nil slice) for a missing key. -/
def CveMap.get : CveMap → Str → List pkgAuditResult
  | [], _ => []
  | (k', v) :: rest, k => if k' = k then v else CveMap.get rest k

/-- Go `m[k] = append(m[k], p)`. -/
def CveMap.append : CveMap → Str → pkgAuditResult → CveMap
  | [], k, p => [(k, [p])]
  | (k', v) :: rest, k, p =>
    if k' = k then (k', v ++ [p]) :: rest else (k', v) :: CveMap.append rest k p

/-- The keys of the map. -/
def CveMap.keys (m : CveMap) : List Str :=
  m.map Prod.fst

/-- The second loop of `scanUnsecurePackages`: the index from identifier to
links. -/
def buildCveIDAdtMap (packAdtRslt : List pkgAuditResult) : CveMap :=
  packAdtRslt.foldl
    (fun m p => p.vulnIDCveIDs.cveIDs.foldl (fun m cid => CveMap.append m cid p) m) []

/-- The order in which a Go `range` over a map visits the keys: unspecified,
but each key once. -/
structure RangeOrder where
  order : List Str → List Str
  perm : ∀ ks, (order ks).Perm ks

/-- The last loop of `scanUnsecurePackages`: one entry per detail record. -/
def buildCvePacksList {δ : Type} (cveIDAdtMap : CveMap) (cveDetails : List (CveDetail δ)) :
    List (CvePacksInfo δ) :=
  cveDetails.map fun d =>
    { CveID := d.CveID
      CveDetail := d
      Packs := (cveIDAdtMap.get d.CveID).map fun r => r.pack
      DistroAdvisories :=
        (cveIDAdtMap.get d.CveID).map fun r => { AdvisoryID := r.vulnIDCveIDs.vulnID } }

/-- The method `scanUnsecurePackages`, given the inventory `o.Packages`, the
results `rm` and `audit` of its two remote commands, the key order of the map
range and the external lookup `FetchCveDetails`. The result is the Go pair
(report, error), a nil report being the empty list; `none` is a panic. -/
def scanUnsecurePackages {δ : Type} (Packages : List PackageInfo) (rm audit : sshResult)
    (range : RangeOrder) (FetchCveDetails : List Str → Except Str (List (CveDetail δ))) :
    Option (List (CvePacksInfo δ) × Option ScanError) :=
  if !rm.isSuccess [0] then some ([], some (.sshFailed rm))
  else if !audit.isSuccess [0, 1] then some ([], some (.sshFailed audit))
  else if audit.ExitStatus = 0 then some ([], none)
  else
    match resolveBlocks Packages (splitIntoBlocks audit.Stdout) [] with
    | none => none
    | some (.error e) => some ([], some e)
    | some (.ok packAdtRslt) =>
      let cveIDAdtMap := buildCveIDAdtMap packAdtRslt
      let cveIDs := range.order cveIDAdtMap.keys
      match FetchCveDetails cveIDs with
      | .error msg => some ([], some (.lookupFailed msg))
      | .ok cveDetails => some (buildCvePacksList cveIDAdtMap cveDetails, none)

/-! ## Specification-level descriptions used in the statements -/

/-- The identifier list of a block as the specification words it: the second
whitespace fields of the lines beginning with "CVE:", in line order. -/
def cveFieldsOfCveLines (block : Str) : List Str :=
  ((Split block '\n').filter (fun l => HasPrefix l "CVE:".toList)).filterMap
    (fun l => (Fields l)[1]?)

/-- The lines of a block that reach the "CVE:" rule of `parseBlock`: they
begin with "CVE:" and do not end in " is vulnerable:". -/
def cveRuleLines (block : Str) : List Str :=
  (Split block '\n').filter
    (fun l => !HasSuffix l " is vulnerable:".toList && HasPrefix l "CVE:".toList)

/-- The trimmed forms of the non-blank lines of a text, in input order. -/
def trimmedNonBlankLines (stdout : Str) : List Str :=
  ((Split stdout '\n').map TrimSpace).filter (fun l => !l.isEmpty)

/-- The runs of adjacent non-blank lines of a text: its trimmed lines, cut at
every blank line, the empty runs dropped. Two non-blank lines are in the same
run exactly when no blank line lies between them. -/
def nonBlankRuns (stdout : Str) : List (List Str) :=
  (splitAt (fun l : Str => l.isEmpty) ((Split stdout '\n').map TrimSpace)).filter
    (fun g => !g.isEmpty)

/-- The lines of the text made of the given blocks (each a list of lines)
joined with a blank line between them. -/
def blankSeparatedLines : List (List Str) → List Str
  | [] => [[]]
  | [B] => B
  | B :: B2 :: rest => B ++ [] :: blankSeparatedLines (B2 :: rest)

/-- The links of the accepted advisory blocks, in block order: one for each
block that parses to a non-empty identifier list and whose package name is
found in the inventory, carrying the package found, the advisory id and the
identifiers of the block. -/
def advisoryLinks (Packages : List PackageInfo) (blocks : List Str) : List pkgAuditResult :=
  blocks.filterMap fun b =>
    match parseBlock b with
    | none => none
    | some r =>
      if r.cveIDs = [] then none
      else (FindByName Packages r.packName).map fun pack =>
        { pack := pack, vulnIDCveIDs := { vulnID := r.vulnID, cveIDs := r.cveIDs } }

/-- The links whose identifier list contains `c`, in link order, each
repeated once per occurrence of `c` in its list. -/
def linksCarrying (c : Str) (links : List pkgAuditResult) : List pkgAuditResult :=
  links.flatMap fun p => (p.vulnIDCveIDs.cveIDs.filter (fun x => x == c)).map fun _ => p

/-- A block resolves in the inventory: `parseBlock` returns on it and, when
its identifier list is not empty, its package name is found. -/
def blockResolves (Packages : List PackageInfo) (b : Str) : Bool :=
  match parseBlock b with
  | none => false
  | some r => r.cveIDs.isEmpty || (FindByName Packages r.packName).isSome

/-- A block names the unknown package `name`: it parses to a non-empty
identifier list and to the package name `name`, which is not found in the
inventory. -/
def blockUnknown (Packages : List PackageInfo) (b : Str) (name : Str) : Bool :=
  match parseBlock b with
  | none => false
  | some r => !r.cveIDs.isEmpty && r.packName == name && (FindByName Packages name).isNone

/-- The report entry the specification describes for the detail record `d`:
the packages of the links carrying the identifier of `d` and, position by
position, the advisory ids of the same links. -/
def reportEntry {δ : Type} (links : List pkgAuditResult) (d : CveDetail δ) : CvePacksInfo δ :=
  { CveID := d.CveID
    CveDetail := d
    Packs := (linksCarrying d.CveID links).map fun p => p.pack
    DistroAdvisories :=
      (linksCarrying d.CveID links).map fun p => { AdvisoryID := p.vulnIDCveIDs.vulnID } }

/-- A map range that visits the keys in their insertion order. -/
def insertionOrder : RangeOrder :=
  { order := id, perm := fun _ => List.Perm.refl _ }

/-- The vulnerability index of a scan all of whose blocks resolve: the map
from identifier to links built from the accepted advisory blocks of the audit
output. -/
def cveIndex (Packages : List PackageInfo) (audit : sshResult) : CveMap :=
  buildCveIDAdtMap (advisoryLinks Packages (splitIntoBlocks audit.Stdout))

/-! ## Example inputs -/

/-- An inventory with the packages nginx and openssl. -/
def exampleInventory : List PackageInfo :=
  [{ Name := "nginx".toList, Version := "1.10.1".toList, NewVersion := [] },
   { Name := "openssl".toList, Version := "1.0.1".toList, NewVersion := [] }]

/-- The result of a successful cleanup command. -/
def exampleRm : sshResult :=
  { Stdout := [], ExitStatus := 0 }

/-- An audit result with exit status 1 and two advisory blocks: the first
carries CVE-2016-0001 for nginx, the second CVE-2016-0001 and CVE-2016-0002
for openssl. -/
def exampleAudit : sshResult :=
  { Stdout := ("nginx-1.10.1 is vulnerable:\nCVE: CVE-2016-0001\nWWW: /a.html\n\n" ++
      "openssl-1.0.1 is vulnerable:\nCVE: CVE-2016-0001\nCVE: CVE-2016-0002\n" ++
      "WWW: /b.html\n").toList,
    ExitStatus := 1 }

/-! ## Lemmas on the string functions -/

theorem splitAt_ne_nil {α : Type} (p : α → Bool) (s : List α) : splitAt p s ≠ [] := by
  cases s with
  | nil => simp [splitAt]
  | cons c cs =>
    unfold splitAt
    split_ifs
    · simp
    · split <;> simp

theorem splitAt_of_forall_false (p : Char → Bool) (s : Str)
    (h : ∀ c ∈ s, p c = false) : splitAt p s = [s] := by
  induction s with
  | nil => rfl
  | cons c cs ih =>
    have hc : p c = false := h c (by simp)
    have ih1 := ih (fun x hx => h x (by simp [hx]))
    simp [splitAt, hc, ih1]

theorem splitAt_append_sep (p : Char → Bool) (a b : Str) (x : Char)
    (h : ∀ c ∈ a, p c = false) (hx : p x = true) :
    splitAt p (a ++ x :: b) = a :: splitAt p b := by
  induction a with
  | nil => simp [splitAt, hx]
  | cons c cs ih =>
    have hc : p c = false := h c (by simp)
    have ih1 := ih (fun y hy => h y (by simp [hy]))
    simp [splitAt, hc, ih1]

theorem Split_ne_nil (s : Str) (sep : Char) : Split s sep ≠ [] :=
  splitAt_ne_nil _ s

theorem Split_of_not_mem (s : Str) (sep : Char) (h : sep ∉ s) : Split s sep = [s] := by
  apply splitAt_of_forall_false
  intro c hc
  have : c ≠ sep := fun e => h (e ▸ hc)
  simpa using this

theorem Split_append_sep (a b : Str) (sep : Char) (h : sep ∉ a) :
    Split (a ++ sep :: b) sep = a :: Split b sep := by
  apply splitAt_append_sep
  · intro c hc
    have : c ≠ sep := fun e => h (e ▸ hc)
    simpa using this
  · simp

theorem Fields_of_no_space (a : Str) (hne : a ≠ []) (h : ∀ c ∈ a, isSpace c = false) :
    Fields a = [a] := by
  cases a with
  | nil => exact absurd rfl hne
  | cons c cs => simp [Fields, splitAt_of_forall_false isSpace _ h]

theorem Fields_append_space (a b : Str) (x : Char) (hne : a ≠ [])
    (h : ∀ c ∈ a, isSpace c = false) (hx : isSpace x = true) :
    Fields (a ++ x :: b) = a :: Fields b := by
  cases a with
  | nil => exact absurd rfl hne
  | cons c cs =>
    unfold Fields
    rw [splitAt_append_sep isSpace (c :: cs) b x h hx]
    simp

theorem Fields_cons_space (b : Str) (x : Char) (hx : isSpace x = true) :
    Fields (x :: b) = Fields b := by
  simp [Fields, splitAt, hx]

theorem indexLast_eq (xs : List Str) (h : xs ≠ []) : indexLast xs = some (xs.getLastD []) := by
  cases xs with
  | nil => exact absurd rfl h
  | cons x t =>
    simp [indexLast, List.getLastD]
    rw [List.getLast_eq_getElem]
    simp

theorem sliceInit_eq (xs : List Str) (h : xs ≠ []) : sliceInit xs = some xs.dropLast := by
  cases xs with
  | nil => exact absurd rfl h
  | cons x t => simp [sliceInit, List.dropLast_eq_take]

theorem TrimSuffix_char (s : Str) (c : Char) :
    TrimSuffix s [c] = if s.getLast? = some c then s.dropLast else s := by
  rcases List.eq_nil_or_concat s with rfl | ⟨t, x, rfl⟩
  · simp [TrimSuffix, HasSuffix]
  · by_cases hx : x = c
    · subst hx
      simp [TrimSuffix, HasSuffix, List.isPrefixOf]
    · have hx1 : ¬ c = x := fun e => hx e.symm
      simp [TrimSuffix, HasSuffix, List.isPrefixOf, hx, hx1]

theorem HasSuffix_iff (s suf : Str) : HasSuffix s suf = true ↔ suf <:+ s := by
  simp [HasSuffix]

theorem HasPrefix_iff (s pre : Str) : HasPrefix s pre = true ↔ pre <+: s := by
  simp [HasPrefix]

theorem TrimSuffix_append (a suf : Str) : TrimSuffix (a ++ suf) suf = a := by
  have h : HasSuffix (a ++ suf) suf = true := (HasSuffix_iff _ _).mpr (List.suffix_append a suf)
  simp [TrimSuffix, h]

theorem Split_append_last (x y : Str) (sep : Char) (h : sep ∉ y) :
    Split (x ++ sep :: y) sep = Split x sep ++ [y] := by
  induction x with
  | nil =>
    have e : Split y sep = [y] := Split_of_not_mem y sep h
    simp only [Split] at e
    simp [Split, splitAt, e]
  | cons c cs ih =>
    simp only [Split] at ih
    by_cases hc : c = sep
    · simp [Split, splitAt, hc, ih]
    · have hne := splitAt_ne_nil (fun c => c == sep) cs
      cases hs : splitAt (fun c => c == sep) cs with
      | nil => exact absurd hs hne
      | cons hd tl => simp [Split, splitAt, hc, ih, hs]

theorem Join_cons_cons (x y : Str) (rest : List Str) (sep : Str) :
    Join (x :: y :: rest) sep = x ++ sep ++ Join (y :: rest) sep := rfl

theorem Join_Split (s : Str) (sep : Char) : Join (Split s sep) [sep] = s := by
  induction s with
  | nil => rfl
  | cons c cs ih =>
    simp only [Split] at ih
    have hne := splitAt_ne_nil (fun c => c == sep) cs
    cases hs : splitAt (fun c => c == sep) cs with
    | nil => exact absurd hs hne
    | cons hd tl =>
      rw [hs] at ih
      by_cases hc : c = sep
      · simp [Split, splitAt, hc, hs, Join_cons_cons, ih]
      · cases tl with
        | nil =>
          simp only [Join] at ih
          simp [Split, splitAt, hc, hs, Join, ih]
        | cons y r =>
          rw [Join_cons_cons] at ih
          simp [Split, splitAt, hc, hs, Join_cons_cons, ih]

theorem Split_Join (lines : List Str) (sep : Char) (hne : lines ≠ [])
    (h : ∀ l ∈ lines, sep ∉ l) : Split (Join lines [sep]) sep = lines := by
  induction lines with
  | nil => exact absurd rfl hne
  | cons x rest ih =>
    cases rest with
    | nil => simpa [Join] using Split_of_not_mem x sep (h x (by simp))
    | cons y r =>
      have ih1 := ih (by simp) (fun l hl => h l (by simp [hl]))
      rw [Join_cons_cons, List.append_assoc, List.singleton_append,
        Split_append_sep x _ sep (h x (by simp)), ih1]

/-! ## `parsePkgVersion` on one line -/

theorem parsePkgVersion_of_line (l : Str) (h : '\n' ∉ l) :
    parsePkgVersion l = parsePkgVersionStep [] l := by
  simp [parsePkgVersion, Split_of_not_mem l '\n' h]

theorem lt_length_of_getElem_some {α : Type} (xs : List α) (i : Nat) (a : α)
    (h : xs[i]? = some a) : i < xs.length := by
  by_contra hlt
  rw [List.getElem?_eq_none (Nat.le_of_not_lt hlt)] at h
  exact Option.noConfusion h

theorem parsePkgVersionStep_current (packs : List PackageInfo) (l f0 m : Str)
    (h0 : (Fields l)[0]? = some f0) (h1 : (Fields l)[1]? = some m)
    (hm : m = "=".toList ∨ m = "?".toList) :
    parsePkgVersionStep packs l =
      some (packs ++ [{ Name := Join (Split f0 '-').dropLast "-".toList
                        Version := (Split f0 '-').getLastD []
                        NewVersion := [] }]) := by
  have hlen : ¬ (Fields l).length < 2 :=
    Nat.not_lt.mpr (lt_length_of_getElem_some _ _ _ h1)
  have hm1 : m = "?".toList ∨ m = "=".toList := hm.symm
  simp only [parsePkgVersionStep, hlen, if_false, h0, h1, Option.bind_eq_bind, Option.some_bind,
    indexLast_eq _ (Split_ne_nil f0 '-'), sliceInit_eq _ (Split_ne_nil f0 '-'), hm1, if_true]

theorem parsePkgVersionStep_update (packs : List PackageInfo) (l f0 f6 : Str)
    (h0 : (Fields l)[0]? = some f0) (h1 : (Fields l)[1]? = some "<".toList)
    (h6 : (Fields l)[6]? = some f6) :
    parsePkgVersionStep packs l =
      some (packs ++ [{ Name := Join (Split f0 '-').dropLast "-".toList
                        Version := (Split f0 '-').getLastD []
                        NewVersion := if f6.getLast? = some ')' then f6.dropLast else f6 }]) := by
  have hlen : ¬ (Fields l).length < 2 :=
    Nat.not_lt.mpr (lt_length_of_getElem_some _ _ _ h1)
  have hm1 : ¬ ("<".toList = "?".toList ∨ "<".toList = "=".toList) := by decide
  have ht : TrimSuffix f6 ")".toList = if f6.getLast? = some ')' then f6.dropLast else f6 :=
    TrimSuffix_char f6 ')'
  simp only [parsePkgVersionStep, hlen, if_false, h0, h1, h6, Option.bind_eq_bind,
    Option.some_bind, indexLast_eq _ (Split_ne_nil f0 '-'), sliceInit_eq _ (Split_ne_nil f0 '-'),
    hm1, if_true, ht]

/-! ## Claims on `parsePkgVersion` -/

/-- C3: for a line (no newline in it) whose second whitespace field is "<"
and that has a seventh whitespace field `f6`, `parsePkgVersion` returns
exactly one record; its `NewVersion` is `f6` without a trailing ")", and
its `Name` and `Version` come from the first field `f0`: `Version` is the
last "-"-component of `f0` and `Name` the "-"-join of the components
before it. -/
theorem parsePkgVersion_update_line (l f0 f6 : Str) (hline : '\n' ∉ l)
    (h0 : (Fields l)[0]? = some f0) (h1 : (Fields l)[1]? = some "<".toList)
    (h6 : (Fields l)[6]? = some f6) :
    parsePkgVersion l =
      some [{ Name := Join (Split f0 '-').dropLast "-".toList
              Version := (Split f0 '-').getLastD []
              NewVersion := if f6.getLast? = some ')' then f6.dropLast else f6 }] := by
  rw [parsePkgVersion_of_line l hline, parsePkgVersionStep_update [] l f0 f6 h0 h1 h6]
  rfl

theorem parsePkgVersion_update_line_witness :
    parsePkgVersion "openssl-1.0.1 < needs updating (remote has 1.0.2)".toList =
      some [{ Name := "openssl".toList, Version := "1.0.1".toList,
              NewVersion := "1.0.2".toList }] :=
  (parsePkgVersion_update_line "openssl-1.0.1 < needs updating (remote has 1.0.2)".toList
    "openssl-1.0.1".toList "1.0.2)".toList (by decide) (by decide) (by decide) (by decide)).trans
    (by decide)

/-- C4: for a line (no newline in it) with at least two whitespace fields
whose second field is "=" or "?", `parsePkgVersion` returns exactly one
record, whose `NewVersion` is empty, whatever the other fields are; `Name`
and `Version` come from the first field `f0`. -/
theorem parsePkgVersion_current_line (l f0 m : Str) (hline : '\n' ∉ l)
    (h0 : (Fields l)[0]? = some f0) (h1 : (Fields l)[1]? = some m)
    (hm : m = "=".toList ∨ m = "?".toList) :
    parsePkgVersion l =
      some [{ Name := Join (Split f0 '-').dropLast "-".toList
              Version := (Split f0 '-').getLastD []
              NewVersion := [] }] := by
  rw [parsePkgVersion_of_line l hline, parsePkgVersionStep_current [] l f0 m h0 h1 hm]
  rfl

theorem parsePkgVersion_current_line_witness :
    parsePkgVersion "nginx-1.10.1 = up-to-date with port".toList =
      some [{ Name := "nginx".toList, Version := "1.10.1".toList, NewVersion := [] }] :=
  (parsePkgVersion_current_line "nginx-1.10.1 = up-to-date with port".toList
    "nginx-1.10.1".toList "=".toList (by decide) (by decide) (by decide)
    (Or.inl rfl)).trans (by decide)

/-- C5: `parsePkgVersion` does fail on some input: on the line "a <", which
has the marker "<" and only two fields, the index of the seventh field is
out of range. -/
theorem parsePkgVersion_fails_on_short_update_line :
    (Fields "a <".toList).length = 2 ∧ (Fields "a <".toList)[6]? = none ∧
      parsePkgVersion "a <".toList = none := by
  decide

/-- C6: `parseBlock` does fail on some block: on the one-line block "CVE:",
which has a single whitespace field, the index of the second field is out of
range. -/
theorem parseBlock_fails_on_bare_cve_line :
    (Fields "CVE:".toList).length = 1 ∧ (Fields "CVE:".toList)[1]? = none ∧
      parseBlock "CVE:".toList = none := by
  decide

/-! ## `parseBlock` line by line -/

theorem space_not_mem (c : Str) (h : ∀ x ∈ c, isSpace x = false) : ' ' ∉ c := by
  intro hm
  have := h ' ' hm
  revert this
  decide

theorem newline_not_mem (c : Str) (h : ∀ x ∈ c, isSpace x = false) : '\n' ∉ c := by
  intro hm
  have := h '\n' hm
  revert this
  decide

theorem parseBlockStep_vulnerable (st : BlockResult) (t : Str) (hne : t ≠ [])
    (ht : ∀ c ∈ t, isSpace c = false) :
    parseBlockStep st (t ++ " is vulnerable:".toList) =
      some { st with packName := Join (Split t '-').dropLast "-".toList } := by
  have hs : HasSuffix (t ++ " is vulnerable:".toList) " is vulnerable:".toList = true :=
    (HasSuffix_iff _ _).mpr (List.suffix_append _ _)
  have hf : Fields (t ++ " is vulnerable:".toList) = t :: Fields "is vulnerable:".toList :=
    Fields_append_space t "is vulnerable:".toList ' ' hne ht (by decide)
  simp only [parseBlockStep, hs, if_true, hf, List.getElem?_cons_zero, Option.bind_eq_bind,
    Option.some_bind, sliceInit_eq _ (Split_ne_nil t '-')]

theorem HasSuffix_cve_line (c : Str) (hc : ∀ x ∈ c, isSpace x = false) :
    HasSuffix ("CVE: ".toList ++ c) " is vulnerable:".toList = false := by
  rw [Bool.eq_false_iff]
  intro h
  rw [HasSuffix_iff] at h
  obtain ⟨p, hp⟩ := h
  have hcount := congrArg (List.count ' ') hp
  have h0 : List.count ' ' c = 0 := List.count_eq_zero.mpr (space_not_mem c hc)
  have h1 : List.count ' ' "CVE: ".toList = 1 := by decide
  have h2 : List.count ' ' " is vulnerable:".toList = 2 := by decide
  rw [List.count_append, List.count_append, h0, h1, h2] at hcount
  omega

theorem parseBlockStep_cve (st : BlockResult) (c : Str) (hne : c ≠ [])
    (hc : ∀ x ∈ c, isSpace x = false) :
    parseBlockStep st ("CVE: ".toList ++ c) = some { st with cveIDs := st.cveIDs ++ [c] } := by
  have hs := HasSuffix_cve_line c hc
  have hp : HasPrefix ("CVE: ".toList ++ c) "CVE:".toList = true :=
    (HasPrefix_iff _ _).mpr ⟨' ' :: c, rfl⟩
  have hf : Fields ("CVE: ".toList ++ c) = ["CVE:".toList, c] := by
    have e := Fields_append_space "CVE:".toList c ' ' (by decide) (by decide) (by decide)
    rw [Fields_of_no_space c hne hc] at e
    exact e
  simp only [parseBlockStep, hs, hp, hf, Bool.false_eq_true, if_false, if_true,
    List.getElem?_cons_succ, List.getElem?_cons_zero, Option.bind_eq_bind, Option.some_bind]

theorem parseBlockStep_www (st : BlockResult) (u a : Str) (ha : '/' ∉ a) :
    parseBlockStep st ("WWW: ".toList ++ u ++ '/' :: a ++ ".html".toList) =
      some { st with vulnID := a } := by
  have hl : "WWW: ".toList ++ u ++ '/' :: a ++ ".html".toList =
      ("WWW: ".toList ++ u) ++ '/' :: (a ++ ".html".toList) := by simp
  have hs : HasSuffix ("WWW: ".toList ++ u ++ '/' :: a ++ ".html".toList)
      " is vulnerable:".toList = false := by
    rw [Bool.eq_false_iff]
    intro h
    rw [HasSuffix_iff] at h
    obtain ⟨p, hp⟩ := h
    have hlast := congrArg List.getLast? hp
    have e1 : (p ++ " is vulnerable:".toList).getLast? = some ':' := by
      rw [List.getLast?_append]; rfl
    have e2 : ("WWW: ".toList ++ u ++ '/' :: a ++ ".html".toList).getLast? = some 'l' := by
      rw [List.getLast?_append]; rfl
    rw [e1, e2] at hlast
    revert hlast
    decide
  have hc : HasPrefix ("WWW: ".toList ++ u ++ '/' :: a ++ ".html".toList) "CVE:".toList
      = false := by
    rw [List.append_assoc, List.append_assoc]
    rfl
  have hw : HasPrefix ("WWW: ".toList ++ u ++ '/' :: a ++ ".html".toList) "WWW:".toList
      = true := by
    rw [List.append_assoc, List.append_assoc]
    exact (HasPrefix_iff _ _).mpr ⟨' ' :: (u ++ ('/' :: a ++ ".html".toList)), rfl⟩
  have hnot : '/' ∉ a ++ ".html".toList := by
    intro hm
    rcases List.mem_append.mp hm with h1 | h1
    · exact ha h1
    · revert h1; decide
  have hsplit := Split_append_last ("WWW: ".toList ++ u) (a ++ ".html".toList) '/' hnot
  rw [← hl] at hsplit
  have hidx : indexLast (Split ("WWW: ".toList ++ u ++ '/' :: a ++ ".html".toList) '/') =
      some (a ++ ".html".toList) := by
    rw [indexLast_eq _ (Split_ne_nil _ _), hsplit, List.getLastD_concat]
  simp only [parseBlockStep, hs, hc, hw, hidx, Option.bind_eq_bind, Option.some_bind,
    TrimSuffix_append, if_true, Bool.false_eq_true, if_false]

theorem foldlM_parseBlockStep_cve (cs : List Str)
    (hcs : ∀ c ∈ cs, c ≠ [] ∧ ∀ x ∈ c, isSpace x = false) (st : BlockResult) :
    (cs.map (fun c => "CVE: ".toList ++ c)).foldlM parseBlockStep st =
      some { st with cveIDs := st.cveIDs ++ cs } := by
  induction cs generalizing st with
  | nil => simp
  | cons c rest ih =>
    have h1 := hcs c (by simp)
    have ih1 := ih (fun d hd => hcs d (by simp [hd]))
    rw [List.map_cons, List.foldlM_cons, parseBlockStep_cve st c h1.1 h1.2]
    simp only [Option.bind_eq_bind, Option.some_bind, ih1, List.append_assoc,
      List.singleton_append]

/-! ## Claims on `parseBlock` -/

/-- C7: let `t = n ++ "-" ++ v` be a whitespace-free token whose last
"-"-component is `v`, let `cs` be whitespace-free (non-empty) identifiers, `u`
a URL prefix without newline and `a` an advisory id without "/" and newline.
For the block with the lines "t is vulnerable:", "CVE: c" for each `c` of
`cs` in order, and "WWW: u/a.html", `parseBlock` returns the package name
`n`, the identifiers `cs` and the advisory id `a`. -/
theorem parseBlock_advisory_block (n v : Str) (cs : List Str) (u a : Str)
    (hv : '-' ∉ v) (ht : ∀ c ∈ n ++ '-' :: v, isSpace c = false)
    (hcs : ∀ c ∈ cs, c ≠ [] ∧ ∀ x ∈ c, isSpace x = false)
    (hu : '\n' ∉ u) (ha : '/' ∉ a ∧ '\n' ∉ a) :
    parseBlock (Join ((n ++ '-' :: v ++ " is vulnerable:".toList) ::
        (cs.map (fun c => "CVE: ".toList ++ c) ++
          ["WWW: ".toList ++ u ++ '/' :: a ++ ".html".toList])) "\n".toList) =
      some { packName := n, cveIDs := cs, vulnID := a } := by
  have hlines : Split (Join ((n ++ '-' :: v ++ " is vulnerable:".toList) ::
        (cs.map (fun c => "CVE: ".toList ++ c) ++
          ["WWW: ".toList ++ u ++ '/' :: a ++ ".html".toList])) ['\n']) '\n' =
      (n ++ '-' :: v ++ " is vulnerable:".toList) ::
        (cs.map (fun c => "CVE: ".toList ++ c) ++
          ["WWW: ".toList ++ u ++ '/' :: a ++ ".html".toList]) := by
    apply Split_Join _ '\n' (by simp)
    intro l hl
    rcases List.mem_cons.mp hl with rfl | hl
    · intro hm
      rcases List.mem_append.mp hm with h1 | h1
      · exact newline_not_mem _ ht h1
      · revert h1; decide
    · rcases List.mem_append.mp hl with hl | hl
      · obtain ⟨c, hc, rfl⟩ := List.mem_map.mp hl
        intro hm
        rcases List.mem_append.mp hm with h1 | h1
        · revert h1; decide
        · exact newline_not_mem _ (hcs c hc).2 h1
      · rw [List.mem_singleton] at hl
        subst hl
        intro hm
        simp only [List.mem_append, List.mem_cons] at hm
        rcases hm with ((h1 | h1) | (h1 | h1)) | h1
        · revert h1; decide
        · exact hu h1
        · revert h1; decide
        · exact ha.2 h1
        · revert h1; decide
  have hname : Join (Split (n ++ '-' :: v) '-').dropLast "-".toList = n := by
    rw [Split_append_last n v '-' hv, List.dropLast_concat]
    exact Join_Split n '-'
  unfold parseBlock
  rw [show "\n".toList = ['\n'] from rfl, hlines, List.foldlM_cons,
    parseBlockStep_vulnerable _ _ (by simp) ht, hname]
  simp only [Option.bind_eq_bind, Option.some_bind, List.foldlM_append,
    foldlM_parseBlockStep_cve cs hcs, List.foldlM_cons, parseBlockStep_www _ u a ha.1,
    List.foldlM_nil, List.nil_append]
  rfl

theorem parseBlock_advisory_block_witness :
    parseBlock ("nginx-1.10.1 is vulnerable:\nCVE: CVE-2016-0001\n" ++
        "WWW: https://vuxml.freebsd.org/freebsd/abc123.html").toList =
      some { packName := "nginx".toList, cveIDs := ["CVE-2016-0001".toList],
             vulnID := "abc123".toList } :=
  parseBlock_advisory_block "nginx".toList "1.10.1".toList ["CVE-2016-0001".toList]
    "https://vuxml.freebsd.org/freebsd".toList "abc123".toList
    (by decide) (by decide) (by decide) (by decide) (by decide)

theorem Fields_ne_nil_of_mem (s : Str) (c : Char) (hc : c ∈ s) (hs : isSpace c = false) :
    Fields s ≠ [] := by
  induction s with
  | nil => simp at hc
  | cons d ds ih =>
    by_cases hd : isSpace d = true
    · rw [Fields_cons_space ds d hd]
      rcases List.mem_cons.mp hc with rfl | h
      · rw [hs] at hd
        exact absurd hd (by decide)
      · exact ih h
    · have hne := splitAt_ne_nil isSpace ds
      cases hsp : splitAt isSpace ds with
      | nil => exact absurd hsp hne
      | cons hd1 tl => simp [Fields, splitAt, hd, hsp]

theorem Fields_ne_nil_of_vulnerable (l : Str)
    (h : HasSuffix l " is vulnerable:".toList = true) : Fields l ≠ [] := by
  rw [HasSuffix_iff] at h
  obtain ⟨p, rfl⟩ := h
  exact Fields_ne_nil_of_mem _ 'i' (List.mem_append_right _ (by decide)) (by decide)

theorem parseBlockStep_cveIDs (st : BlockResult) (l : Str)
    (h : HasPrefix l "CVE:".toList = true → 2 ≤ (Fields l).length) :
    ∃ r, parseBlockStep st l = some r ∧
      r.cveIDs = st.cveIDs ++
        (if (!HasSuffix l " is vulnerable:".toList && HasPrefix l "CVE:".toList) = true
          then ((Fields l)[1]?).toList else []) := by
  by_cases hs : HasSuffix l " is vulnerable:".toList = true
  · have hne := Fields_ne_nil_of_vulnerable l hs
    cases hf : Fields l with
    | nil => exact absurd hf hne
    | cons f0 rest =>
      have e : parseBlockStep st l =
          some { st with packName := Join (Split f0 '-').dropLast "-".toList } := by
        simp only [parseBlockStep, hs, if_true, hf, List.getElem?_cons_zero,
          Option.bind_eq_bind, Option.some_bind, sliceInit_eq _ (Split_ne_nil f0 '-')]
      refine ⟨_, e, ?_⟩
      rw [hs]
      simp
  · rw [Bool.not_eq_true] at hs
    by_cases hp : HasPrefix l "CVE:".toList = true
    · have hlen := h hp
      cases hf : Fields l with
      | nil => rw [hf] at hlen; simp at hlen
      | cons f0 rest =>
        cases rest with
        | nil => rw [hf] at hlen; simp at hlen
        | cons f1 rest1 =>
          have e : parseBlockStep st l = some { st with cveIDs := st.cveIDs ++ [f1] } := by
            simp only [parseBlockStep, hs, hp, hf, Bool.false_eq_true, if_false, if_true,
              List.getElem?_cons_succ, List.getElem?_cons_zero, Option.bind_eq_bind,
              Option.some_bind]
          refine ⟨_, e, ?_⟩
          rw [hs, hp]
          simp
    · rw [Bool.not_eq_true] at hp
      by_cases hw : HasPrefix l "WWW:".toList = true
      · have e : parseBlockStep st l =
            some { st with vulnID := TrimSuffix ((Split l '/').getLastD []) ".html".toList } := by
          simp only [parseBlockStep, hs, hp, hw, Bool.false_eq_true, if_false, if_true,
            indexLast_eq _ (Split_ne_nil l '/'), Option.bind_eq_bind, Option.some_bind]
        refine ⟨_, e, ?_⟩
        rw [hs, hp]
        simp
      · rw [Bool.not_eq_true] at hw
        have e : parseBlockStep st l = some st := by
          simp only [parseBlockStep, hs, hp, hw, Bool.false_eq_true, if_false]
        refine ⟨st, e, ?_⟩
        rw [hs, hp]
        simp

theorem foldlM_parseBlockStep_cveIDs (lines : List Str)
    (h : ∀ l ∈ lines, HasPrefix l "CVE:".toList = true → 2 ≤ (Fields l).length)
    (st : BlockResult) :
    ∃ r, lines.foldlM parseBlockStep st = some r ∧
      r.cveIDs = st.cveIDs ++
        (lines.filter (fun l =>
            !HasSuffix l " is vulnerable:".toList && HasPrefix l "CVE:".toList)).filterMap
          (fun l => (Fields l)[1]?) := by
  induction lines generalizing st with
  | nil => exact ⟨st, rfl, by simp⟩
  | cons l rest ih =>
    obtain ⟨r1, hr1, hc1⟩ := parseBlockStep_cveIDs st l (h l (by simp))
    obtain ⟨r2, hr2, hc2⟩ := ih (fun x hx => h x (by simp [hx])) r1
    refine ⟨r2, ?_, ?_⟩
    · rw [List.foldlM_cons, hr1]
      exact hr2
    · rw [hc2, hc1, List.append_assoc]
      congr 1
      rw [List.filter_cons]
      by_cases hg : (!HasSuffix l " is vulnerable:".toList && HasPrefix l "CVE:".toList) = true
      · rw [if_pos hg, if_pos hg, List.filterMap_cons]
        rcases h1 : (Fields l)[1]? with _ | f <;> rfl
      · rw [if_neg hg, if_neg hg]
        rfl

/-- C8, as stated, fails: the one-line block "CVE: x is vulnerable:" begins
with "CVE:" and has three whitespace fields, yet its line is taken by the
" is vulnerable:" rule and contributes no identifier. -/
theorem parseBlock_cveIDs_not_all_cve_lines :
    ¬ ∀ block : Str,
      (∀ l ∈ Split block '\n', HasPrefix l "CVE:".toList = true → 2 ≤ (Fields l).length) →
      (parseBlock block).map (fun r => r.cveIDs) = some (cveFieldsOfCveLines block) := by
  intro h
  have h1 := h "CVE: x is vulnerable:".toList (by decide)
  revert h1
  decide

/-- C8, amended: for every block in which each line beginning with "CVE:" has
at least two whitespace fields, `parseBlock` returns, and its identifiers
are exactly the second whitespace fields of the lines that begin with "CVE:"
and do not end in " is vulnerable:", one per such line, in line order. -/
theorem parseBlock_cveIDs_of_cve_rule_lines (block : Str)
    (h : ∀ l ∈ Split block '\n', HasPrefix l "CVE:".toList = true → 2 ≤ (Fields l).length) :
    ∃ r, parseBlock block = some r ∧
      r.cveIDs = (cveRuleLines block).filterMap (fun l => (Fields l)[1]?) ∧
      r.cveIDs.length = (cveRuleLines block).length := by
  obtain ⟨r, hr, hc⟩ := foldlM_parseBlockStep_cveIDs (Split block '\n') h
    { packName := [], cveIDs := [], vulnID := [] }
  rw [List.nil_append] at hc
  refine ⟨r, hr, hc, ?_⟩
  rw [hc]
  unfold cveRuleLines
  have hall : ∀ l ∈ (Split block '\n').filter (fun l =>
      !HasSuffix l " is vulnerable:".toList && HasPrefix l "CVE:".toList),
      ∃ f, (Fields l)[1]? = some f := by
    intro l hl
    rw [List.mem_filter] at hl
    have hp : HasPrefix l "CVE:".toList = true := by
      have := hl.2
      rw [Bool.and_eq_true] at this
      exact this.2
    have hlen := h l hl.1 hp
    exact ⟨(Fields l)[1], List.getElem?_eq_getElem hlen⟩
  generalize (Split block '\n').filter (fun l =>
      !HasSuffix l " is vulnerable:".toList && HasPrefix l "CVE:".toList) = ls at hall
  induction ls with
  | nil => rfl
  | cons x xs ih =>
    obtain ⟨f, hf⟩ := hall x (by simp)
    rw [List.filterMap_cons, hf]
    simp only [List.length_cons]
    rw [ih (fun l hl => hall l (by simp [hl]))]

theorem parseBlock_cveIDs_of_cve_rule_lines_witness :
    ∃ r, parseBlock "a-1 is vulnerable:\nCVE: c1\nCVE: c2 is vulnerable:\nCVE: c3".toList =
        some r ∧
      r.cveIDs = (cveRuleLines
        "a-1 is vulnerable:\nCVE: c1\nCVE: c2 is vulnerable:\nCVE: c3".toList).filterMap
          (fun l => (Fields l)[1]?) ∧
      r.cveIDs.length = (cveRuleLines
        "a-1 is vulnerable:\nCVE: c1\nCVE: c2 is vulnerable:\nCVE: c3".toList).length :=
  parseBlock_cveIDs_of_cve_rule_lines
    "a-1 is vulnerable:\nCVE: c1\nCVE: c2 is vulnerable:\nCVE: c3".toList (by decide)

/-! ## `splitIntoBlocks` -/

theorem Split_append_cons (a b : Str) (sep : Char) :
    Split (a ++ sep :: b) sep = Split a sep ++ Split b sep := by
  induction a with
  | nil => simp [Split, splitAt]
  | cons c cs ih =>
    simp only [Split] at ih
    by_cases hc : c = sep
    · simp [Split, splitAt, hc, ih]
    · have hne := splitAt_ne_nil (fun c => c == sep) cs
      cases hs : splitAt (fun c => c == sep) cs with
      | nil => exact absurd hs hne
      | cons hd tl => simp [Split, splitAt, hc, ih, hs]

theorem splitIntoBlocksStep_line (bs cur : List Str) (l : Str) (hne : l ≠ [])
    (ht : TrimSpace l = l) : splitIntoBlocksStep (bs, cur) l = (bs, cur ++ [l]) := by
  have h0 : ¬ l.length = 0 := fun h => hne (List.length_eq_zero.mp h)
  simp only [splitIntoBlocksStep, ht, h0, if_false]

theorem splitIntoBlocksStep_blank (bs cur : List Str) (hne : cur ≠ []) :
    splitIntoBlocksStep (bs, cur) [] = (bs ++ [Join cur "\n".toList], []) := by
  have h0 : 0 < cur.length := List.length_pos.mpr hne
  have ht : TrimSpace [] = [] := rfl
  simp only [splitIntoBlocksStep, ht, List.length_nil, if_true, h0]

theorem foldl_splitIntoBlocksStep_lines (B rest : List Str) (bs cur : List Str)
    (h : ∀ l ∈ B, l ≠ [] ∧ '\n' ∉ l ∧ TrimSpace l = l) :
    (B ++ rest).foldl splitIntoBlocksStep (bs, cur) =
      rest.foldl splitIntoBlocksStep (bs, cur ++ B) := by
  induction B generalizing cur with
  | nil => simp
  | cons l ls ih =>
    have hl := h l (by simp)
    rw [List.cons_append, List.foldl_cons, splitIntoBlocksStep_line bs cur l hl.1 hl.2.2,
      ih _ (fun x hx => h x (by simp [hx])), List.append_assoc, List.singleton_append]

theorem Split_Join_blocks (blocks : List (List Str))
    (h : ∀ B ∈ blocks, B ≠ [] ∧ ∀ l ∈ B, l ≠ [] ∧ '\n' ∉ l ∧ TrimSpace l = l) :
    Split (Join (blocks.map (fun B => Join B "\n".toList)) "\n\n".toList) '\n' =
      blankSeparatedLines blocks := by
  induction blocks with
  | nil => rfl
  | cons B rest ih =>
    have hB := h B (by simp)
    have hsplit : Split (Join B "\n".toList) '\n' = B :=
      Split_Join B '\n' hB.1 (fun l hl => (hB.2 l hl).2.1)
    cases rest with
    | nil => exact hsplit
    | cons B2 r =>
      have ih1 := ih (fun X hX => h X (by simp [hX]))
      have e : Join (List.map (fun B => Join B "\n".toList) (B :: B2 :: r)) "\n\n".toList =
          Join B "\n".toList ++ '\n' :: ([] ++ '\n' ::
            Join (List.map (fun B => Join B "\n".toList) (B2 :: r)) "\n\n".toList) := by
        show Join B "\n".toList ++ "\n\n".toList ++
          Join (List.map (fun B => Join B "\n".toList) (B2 :: r)) "\n\n".toList = _
        rw [List.append_assoc]
        rfl
      rw [e, Split_append_cons, hsplit, Split_append_cons, ih1]
      rfl

theorem flushBlock_foldl_blankSeparatedLines (blocks : List (List Str)) (bs : List Str)
    (h : ∀ B ∈ blocks, B ≠ [] ∧ ∀ l ∈ B, l ≠ [] ∧ '\n' ∉ l ∧ TrimSpace l = l) :
    flushBlock ((blankSeparatedLines blocks).foldl splitIntoBlocksStep (bs, [])) =
      bs ++ blocks.map (fun B => Join B "\n".toList) := by
  induction blocks generalizing bs with
  | nil => simp [blankSeparatedLines, splitIntoBlocksStep, flushBlock, TrimSpace]
  | cons B rest ih =>
    have hB := h B (by simp)
    cases rest with
    | nil =>
      have e := foldl_splitIntoBlocksStep_lines B [] bs [] hB.2
      rw [List.append_nil] at e
      have h0 : 0 < B.length := List.length_pos.mpr hB.1
      simp only [blankSeparatedLines, e, List.foldl_nil, List.nil_append, flushBlock, h0,
        if_true, List.map_cons, List.map_nil]
    | cons B2 r =>
      have ih1 := ih (bs ++ [Join B "\n".toList]) (fun X hX => h X (by simp [hX]))
      rw [blankSeparatedLines, foldl_splitIntoBlocksStep_lines B _ bs [] hB.2, List.nil_append,
        List.foldl_cons, splitIntoBlocksStep_blank bs B hB.1, ih1, List.append_assoc,
        List.singleton_append]
      rfl

/-- C9: round trip of `splitIntoBlocks`. For every sequence of blocks, each
the newline-join of one or more lines that are non-empty, contain no newline
and equal their own whitespace-trim, splitting the blocks joined with a blank
line between them returns exactly the original blocks, in order. -/
theorem splitIntoBlocks_roundtrip (blocks : List (List Str))
    (h : ∀ B ∈ blocks, B ≠ [] ∧ ∀ l ∈ B, l ≠ [] ∧ '\n' ∉ l ∧ TrimSpace l = l) :
    splitIntoBlocks (Join (blocks.map (fun B => Join B "\n".toList)) "\n\n".toList) =
      blocks.map (fun B => Join B "\n".toList) := by
  unfold splitIntoBlocks
  rw [Split_Join_blocks blocks h, flushBlock_foldl_blankSeparatedLines blocks [] h,
    List.nil_append]

theorem splitIntoBlocks_roundtrip_witness :
    splitIntoBlocks "a-1 is vulnerable:\nCVE: c1\n\nb-2 is vulnerable:".toList =
      ["a-1 is vulnerable:\nCVE: c1".toList, "b-2 is vulnerable:".toList] :=
  splitIntoBlocks_roundtrip
    [["a-1 is vulnerable:".toList, "CVE: c1".toList], ["b-2 is vulnerable:".toList]]
    (by decide)

theorem mem_of_mem_TrimSpace (l : Str) (c : Char) (h : c ∈ TrimSpace l) : c ∈ l := by
  unfold TrimSpace at h
  rw [List.mem_reverse] at h
  have h1 := (List.dropWhile_sublist isSpace).subset h
  rw [List.mem_reverse] at h1
  exact (List.dropWhile_sublist isSpace).subset h1

theorem mem_splitAt {α : Type} (p : α → Bool) (xs : List α) :
    ∀ g ∈ splitAt p xs, ∀ x ∈ g, x ∈ xs ∧ p x = false := by
  induction xs with
  | nil =>
    intro g hg x hx
    simp only [splitAt, List.mem_singleton] at hg
    subst hg
    simp at hx
  | cons c cs ih =>
    intro g hg x hx
    have hne := splitAt_ne_nil p cs
    cases hs : splitAt p cs with
    | nil => exact absurd hs hne
    | cons hd tl =>
      rw [hs] at ih
      by_cases hc : p c = true
      · simp only [splitAt, hc, if_true, hs] at hg
        rcases List.mem_cons.mp hg with rfl | hg
        · simp at hx
        · have := ih g hg x hx
          exact ⟨List.mem_cons_of_mem _ this.1, this.2⟩
      · simp only [splitAt, hc, if_false, hs] at hg
        rcases List.mem_cons.mp hg with rfl | hg
        · rcases List.mem_cons.mp hx with rfl | hx1
          · exact ⟨List.mem_cons_self _ _, by simpa using hc⟩
          · have := ih hd (List.mem_cons_self _ _) x hx1
            exact ⟨List.mem_cons_of_mem _ this.1, this.2⟩
        · have := ih g (List.mem_cons_of_mem _ hg) x hx
          exact ⟨List.mem_cons_of_mem _ this.1, this.2⟩

theorem flatten_splitAt {α : Type} (p : α → Bool) (xs : List α) :
    (splitAt p xs).flatten = xs.filter (fun x => !p x) := by
  induction xs with
  | nil => rfl
  | cons c cs ih =>
    have hne := splitAt_ne_nil p cs
    cases hs : splitAt p cs with
    | nil => exact absurd hs hne
    | cons hd tl =>
      rw [hs] at ih
      by_cases hc : p c = true
      · simp [splitAt, hc, hs, ← ih]
      · simp [splitAt, hc, hs, ← ih]

theorem flatten_filter_nonempty {α : Type} (gs : List (List α)) :
    (gs.filter (fun g => !g.isEmpty)).flatten = gs.flatten := by
  induction gs with
  | nil => rfl
  | cons g rest ih =>
    cases g with
    | nil => simpa using ih
    | cons x xs => simp [ih]

theorem flushBlock_foldl_runs (ls : List Str) (bs cur g : List Str) (gs : List (List Str))
    (h : splitAt (fun l : Str => l.isEmpty) (ls.map TrimSpace) = g :: gs) :
    flushBlock (ls.foldl splitIntoBlocksStep (bs, cur)) =
      bs ++ (((cur ++ g) :: gs).filter (fun g => !g.isEmpty)).map
        (fun g => Join g "\n".toList) := by
  induction ls generalizing bs cur g gs with
  | nil =>
    simp only [List.map_nil, splitAt, List.cons.injEq] at h
    obtain ⟨rfl, rfl⟩ := h
    cases cur with
    | nil => simp [flushBlock]
    | cons c cs => simp [flushBlock]
  | cons l rest ih =>
    have hne := splitAt_ne_nil (fun l : Str => l.isEmpty) (rest.map TrimSpace)
    cases hs : splitAt (fun l : Str => l.isEmpty) (rest.map TrimSpace) with
    | nil => exact absurd hs hne
    | cons g1 gs1 =>
      rw [List.foldl_cons]
      cases hT : TrimSpace l with
      | nil =>
        simp only [List.map_cons, hT, splitAt, List.isEmpty_nil, if_true, hs,
          List.cons.injEq] at h
        obtain ⟨rfl, rfl⟩ := h
        cases cur with
        | nil =>
          have hstep : splitIntoBlocksStep (bs, []) l = (bs, []) := by
            simp [splitIntoBlocksStep, hT]
          rw [hstep, ih bs [] g1 gs1 hs]
          simp
        | cons c cs =>
          have hstep : splitIntoBlocksStep (bs, c :: cs) l =
              (bs ++ [Join (c :: cs) "\n".toList], []) := by
            simp [splitIntoBlocksStep, hT]
          rw [hstep, ih _ [] g1 gs1 hs]
          simp
      | cons x xs =>
        simp only [List.map_cons, hT, splitAt, List.isEmpty_cons, Bool.false_eq_true, if_false,
          hs, List.cons.injEq] at h
        obtain ⟨rfl, rfl⟩ := h
        have hstep : splitIntoBlocksStep (bs, cur) l = (bs, cur ++ [x :: xs]) := by
          simp [splitIntoBlocksStep, hT]
        rw [hstep, ih bs _ g1 gs1 hs]
        simp

theorem splitIntoBlocks_eq_runs (stdout : Str) :
    splitIntoBlocks stdout = (nonBlankRuns stdout).map (fun g => Join g "\n".toList) := by
  have hne := splitAt_ne_nil (fun l : Str => l.isEmpty) ((Split stdout '\n').map TrimSpace)
  cases hs : splitAt (fun l : Str => l.isEmpty) ((Split stdout '\n').map TrimSpace) with
  | nil => exact absurd hs hne
  | cons g gs =>
    unfold splitIntoBlocks nonBlankRuns
    rw [flushBlock_foldl_runs _ [] [] g gs hs, hs]
    rfl

theorem nonBlankRuns_wellformed (stdout : Str) :
    ∀ g ∈ nonBlankRuns stdout, g ≠ [] ∧ ∀ l ∈ g, l ≠ [] ∧ '\n' ∉ l := by
  intro g hg
  unfold nonBlankRuns at hg
  rw [List.mem_filter] at hg
  refine ⟨?_, ?_⟩
  · intro e
    rw [e] at hg
    simp at hg
  · intro l hl
    have h1 := mem_splitAt _ _ g hg.1 l hl
    refine ⟨?_, ?_⟩
    · intro e
      rw [e] at h1
      simp at h1
    · obtain ⟨raw, hraw, rfl⟩ := List.mem_map.mp h1.1
      intro hm
      have h2 := mem_of_mem_TrimSpace raw '\n' hm
      have h3 := (mem_splitAt _ _ raw hraw '\n' h2).2
      simp at h3

theorem flatten_nonBlankRuns (stdout : Str) :
    (nonBlankRuns stdout).flatten = trimmedNonBlankLines stdout := by
  unfold nonBlankRuns trimmedNonBlankLines
  rw [flatten_filter_nonempty, flatten_splitAt]

/-- C10: for every input, (1) the blocks of `splitIntoBlocks` are the
newline-joins of the runs of adjacent non-blank lines (trimmed), so two lines
share a block exactly when no blank line lies between them; (2) the lines of
the blocks are those runs again; (3) concatenated in block order they are
exactly the trimmed non-blank lines of the input, in input order; (4) no block
is returned exactly when every line of the input is blank, the empty string
included. -/
theorem splitIntoBlocks_lines (stdout : Str) :
    splitIntoBlocks stdout = (nonBlankRuns stdout).map (fun g => Join g "\n".toList) ∧
    (splitIntoBlocks stdout).map (fun b => Split b '\n') = nonBlankRuns stdout ∧
    (splitIntoBlocks stdout).flatMap (fun b => Split b '\n') = trimmedNonBlankLines stdout ∧
    (splitIntoBlocks stdout = [] ↔ ∀ l ∈ Split stdout '\n', TrimSpace l = []) ∧
    splitIntoBlocks [] = [] := by
  have h1 := splitIntoBlocks_eq_runs stdout
  have h2 : (splitIntoBlocks stdout).map (fun b => Split b '\n') = nonBlankRuns stdout := by
    rw [h1, List.map_map]
    have hw := nonBlankRuns_wellformed stdout
    have e : ∀ g ∈ nonBlankRuns stdout,
        ((fun b => Split b '\n') ∘ fun g => Join g "\n".toList) g = id g := by
      intro g hg
      exact Split_Join g '\n' (hw g hg).1 (fun l hl => ((hw g hg).2 l hl).2)
    rw [List.map_congr_left e, List.map_id]
  have h3 : (splitIntoBlocks stdout).flatMap (fun b => Split b '\n') =
      trimmedNonBlankLines stdout := by
    rw [List.flatMap_def, h2, flatten_nonBlankRuns]
  refine ⟨h1, h2, h3, ?_, rfl⟩
  constructor
  · intro he l hl
    rw [he] at h3
    have h4 : trimmedNonBlankLines stdout = [] := h3.symm
    unfold trimmedNonBlankLines at h4
    rw [List.filter_eq_nil_iff] at h4
    have := h4 (TrimSpace l) (List.mem_map_of_mem _ hl)
    simpa using this
  · intro hall
    have h4 : trimmedNonBlankLines stdout = [] := by
      unfold trimmedNonBlankLines
      rw [List.filter_eq_nil_iff]
      intro x hx
      obtain ⟨l, hl, rfl⟩ := List.mem_map.mp hx
      rw [hall l hl]
      simp
    rw [h4, List.flatMap_eq_nil_iff] at h3
    cases hb : splitIntoBlocks stdout with
    | nil => rfl
    | cons b rest =>
      rw [hb] at h3
      exact absurd (h3 b (List.mem_cons_self _ _)) (Split_ne_nil b '\n')

/-! ## `scanUnsecurePackages` -/

theorem resolveBlocks_cons_skip (Packages : List PackageInfo) (b : Str) (bs : List Str)
    (acc : List pkgAuditResult) (r : BlockResult) (hr : parseBlock b = some r)
    (he : r.cveIDs = []) :
    resolveBlocks Packages (b :: bs) acc = resolveBlocks Packages bs acc := by
  have hl : r.cveIDs.length = 0 := by rw [he]; rfl
  simp only [resolveBlocks, hr, hl, if_true]

theorem resolveBlocks_cons_found (Packages : List PackageInfo) (b : Str) (bs : List Str)
    (acc : List pkgAuditResult) (r : BlockResult) (pack : PackageInfo)
    (hr : parseBlock b = some r) (he : r.cveIDs ≠ [])
    (hpack : FindByName Packages r.packName = some pack) :
    resolveBlocks Packages (b :: bs) acc =
      resolveBlocks Packages bs
        (acc ++ [{ pack := pack,
                   vulnIDCveIDs := { vulnID := r.vulnID, cveIDs := r.cveIDs } }]) := by
  have hl : ¬ r.cveIDs.length = 0 := fun e => he (List.length_eq_zero.mp e)
  simp only [resolveBlocks, hr, hl, if_false, hpack]

theorem resolveBlocks_cons_unknown (Packages : List PackageInfo) (b : Str) (bs : List Str)
    (acc : List pkgAuditResult) (r : BlockResult)
    (hr : parseBlock b = some r) (he : r.cveIDs ≠ [])
    (hnf : FindByName Packages r.packName = none) :
    resolveBlocks Packages (b :: bs) acc =
      some (.error (.packageNotFound r.packName)) := by
  have hl : ¬ r.cveIDs.length = 0 := fun e => he (List.length_eq_zero.mp e)
  simp only [resolveBlocks, hr, hl, if_false, hnf]

theorem advisoryLinks_cons_skip (Packages : List PackageInfo) (b : Str) (bs : List Str)
    (r : BlockResult) (hr : parseBlock b = some r) (he : r.cveIDs = []) :
    advisoryLinks Packages (b :: bs) = advisoryLinks Packages bs := by
  simp only [advisoryLinks, List.filterMap_cons, hr, he, if_true]

theorem advisoryLinks_cons_found (Packages : List PackageInfo) (b : Str) (bs : List Str)
    (r : BlockResult) (pack : PackageInfo) (hr : parseBlock b = some r) (he : r.cveIDs ≠ [])
    (hpack : FindByName Packages r.packName = some pack) :
    advisoryLinks Packages (b :: bs) =
      { pack := pack, vulnIDCveIDs := { vulnID := r.vulnID, cveIDs := r.cveIDs } } ::
        advisoryLinks Packages bs := by
  simp only [advisoryLinks, List.filterMap_cons, hr, he, if_false, hpack, Option.map_some']

theorem blockResolves_iff (Packages : List PackageInfo) (b : Str) :
    blockResolves Packages b = true ↔
      ∃ r, parseBlock b = some r ∧
        (r.cveIDs = [] ∨ ∃ pack, FindByName Packages r.packName = some pack) := by
  unfold blockResolves
  cases parseBlock b with
  | none => simp
  | some r => simp [Option.isSome_iff_exists]

theorem blockUnknown_iff (Packages : List PackageInfo) (b : Str) (name : Str) :
    blockUnknown Packages b name = true ↔
      ∃ r, parseBlock b = some r ∧ r.cveIDs ≠ [] ∧ r.packName = name ∧
        FindByName Packages name = none := by
  unfold blockUnknown
  cases parseBlock b with
  | none => simp
  | some r => simp [and_assoc]

theorem resolveBlocks_of_resolves (Packages : List PackageInfo) (blocks : List Str)
    (acc : List pkgAuditResult) (h : ∀ b ∈ blocks, blockResolves Packages b = true) :
    resolveBlocks Packages blocks acc = some (.ok (acc ++ advisoryLinks Packages blocks)) := by
  induction blocks generalizing acc with
  | nil => simp [resolveBlocks, advisoryLinks]
  | cons b rest ih =>
    have ih1 := fun acc => ih acc (fun x hx => h x (by simp [hx]))
    obtain ⟨r, hr, hcase⟩ := (blockResolves_iff Packages b).mp (h b (by simp))
    by_cases he : r.cveIDs = []
    · rw [resolveBlocks_cons_skip Packages b rest acc r hr he,
        advisoryLinks_cons_skip Packages b rest r hr he, ih1]
    · rcases hcase with hcase | ⟨pack, hpack⟩
      · exact absurd hcase he
      · rw [resolveBlocks_cons_found Packages b rest acc r pack hr he hpack,
          advisoryLinks_cons_found Packages b rest r pack hr he hpack, ih1,
          List.append_assoc, List.singleton_append]

theorem resolveBlocks_of_unknown (Packages : List PackageInfo) (pre : List Str) (b : Str)
    (post : List Str) (name : Str) (acc : List pkgAuditResult)
    (hpre : ∀ x ∈ pre, blockResolves Packages x = true)
    (hb : blockUnknown Packages b name = true) :
    resolveBlocks Packages (pre ++ b :: post) acc = some (.error (.packageNotFound name)) := by
  induction pre generalizing acc with
  | nil =>
    obtain ⟨r, hr, hne, hname, hnf⟩ := (blockUnknown_iff Packages b name).mp hb
    subst hname
    rw [List.nil_append, resolveBlocks_cons_unknown Packages b post acc r hr hne hnf]
  | cons x rest ih =>
    have ih1 := fun acc => ih acc (fun y hy => hpre y (by simp [hy]))
    obtain ⟨r, hr, hcase⟩ := (blockResolves_iff Packages x).mp (hpre x (by simp))
    by_cases he : r.cveIDs = []
    · rw [List.cons_append, resolveBlocks_cons_skip Packages x _ acc r hr he, ih1]
    · rcases hcase with hcase | ⟨pack, hpack⟩
      · exact absurd hcase he
      · rw [List.cons_append, resolveBlocks_cons_found Packages x _ acc r pack hr he hpack,
          ih1]

theorem first_unknown_block (Packages : List PackageInfo) (pre : List Str) (b : Str)
    (post : List Str) (name : Str) (hpre : ∀ x ∈ pre, (parseBlock x).isSome = true)
    (hb : blockUnknown Packages b name = true) :
    ∃ pre1 b1 post1 name1, pre ++ b :: post = pre1 ++ b1 :: post1 ∧
      pre1.length ≤ pre.length ∧
      (∀ x ∈ pre1, blockResolves Packages x = true) ∧
      blockUnknown Packages b1 name1 = true ∧
      ((∀ x ∈ pre, blockResolves Packages x = true) → pre1 = pre ∧ b1 = b ∧ name1 = name) := by
  induction pre with
  | nil => exact ⟨[], b, post, name, rfl, Nat.le_refl _, by simp, hb, fun _ => ⟨rfl, rfl, rfl⟩⟩
  | cons x rest ih =>
    obtain ⟨pre1, b1, post1, name1, hsplit, hlen, hres, hunk, hfirst⟩ :=
      ih (fun y hy => hpre y (by simp [hy]))
    by_cases hx : blockResolves Packages x = true
    · refine ⟨x :: pre1, b1, post1, name1, ?_, ?_, ?_, hunk, ?_⟩
      · rw [List.cons_append, hsplit, List.cons_append]
      · simpa using hlen
      · intro y hy
        rcases List.mem_cons.mp hy with rfl | hy
        · exact hx
        · exact hres y hy
      · intro hall
        obtain ⟨h1, h2, h3⟩ := hfirst (fun y hy => hall y (by simp [hy]))
        exact ⟨by rw [h1], h2, h3⟩
    · have hsome := hpre x (by simp)
      obtain ⟨r, hr⟩ := Option.isSome_iff_exists.mp hsome
      have hunkx : blockUnknown Packages x r.packName = true := by
        unfold blockResolves at hx
        unfold blockUnknown
        rw [hr] at hx ⊢
        simp only [Bool.or_eq_true, not_or, Bool.not_eq_true] at hx
        simp [hx.1, Option.isNone_iff_eq_none, Option.not_isSome_iff_eq_none.mp
          (by simpa using hx.2)]
      refine ⟨[], x, rest ++ b :: post, r.packName, rfl, Nat.zero_le _, by simp, hunkx, ?_⟩
      intro hall
      exact absurd (hall x (by simp)) hx

theorem isSuccess_of_exit_zero (r : sshResult) (h : r.ExitStatus = 0) :
    r.isSuccess [0] = true := by
  simp [sshResult.isSuccess, h]

theorem isSuccess_of_exit_one (r : sshResult) (h : r.ExitStatus = 1) :
    r.isSuccess [0, 1] = true := by
  simp [sshResult.isSuccess, h]

theorem scanUnsecurePackages_of_exit_one {δ : Type} (Packages : List PackageInfo)
    (rm audit : sshResult) (range : RangeOrder)
    (FetchCveDetails : List Str → Except Str (List (CveDetail δ)))
    (hrm : rm.ExitStatus = 0) (haudit : audit.ExitStatus = 1) :
    scanUnsecurePackages Packages rm audit range FetchCveDetails =
      match resolveBlocks Packages (splitIntoBlocks audit.Stdout) [] with
      | none => none
      | some (.error e) => some ([], some e)
      | some (.ok packAdtRslt) =>
        match FetchCveDetails (range.order (buildCveIDAdtMap packAdtRslt).keys) with
        | .error msg => some ([], some (.lookupFailed msg))
        | .ok cveDetails =>
          some (buildCvePacksList (buildCveIDAdtMap packAdtRslt) cveDetails, none) := by
  have h1 : ¬ audit.ExitStatus = 0 := by rw [haudit]; decide
  simp only [scanUnsecurePackages, isSuccess_of_exit_zero rm hrm,
    isSuccess_of_exit_one audit haudit, Bool.not_true, Bool.false_eq_true, if_false, h1]

/-- C1: let the audit command end with exit status 1 and let some block `b`
of its output parse to a non-empty identifier list and to a package name that
is not found in the inventory, the blocks before `b` being valid for
`parseBlock` (it returns on them), the blocks after `b` arbitrary. Then
`scanUnsecurePackages` returns an error and no report entry: the error
carries the package name of the first block `b1` of that kind (every block
before `b1` resolves), which is `b` itself when all blocks before `b`
resolve. -/
theorem scanUnsecurePackages_unknown_package {δ : Type} (Packages : List PackageInfo)
    (rm audit : sshResult) (range : RangeOrder)
    (FetchCveDetails : List Str → Except Str (List (CveDetail δ)))
    (pre : List Str) (b : Str) (post : List Str) (name : Str)
    (hrm : rm.ExitStatus = 0) (haudit : audit.ExitStatus = 1)
    (hblocks : splitIntoBlocks audit.Stdout = pre ++ b :: post)
    (hpre : ∀ x ∈ pre, (parseBlock x).isSome = true)
    (hb : blockUnknown Packages b name = true) :
    ∃ pre1 b1 post1 name1,
      splitIntoBlocks audit.Stdout = pre1 ++ b1 :: post1 ∧
      pre1.length ≤ pre.length ∧
      (∀ x ∈ pre1, blockResolves Packages x = true) ∧
      blockUnknown Packages b1 name1 = true ∧
      ((∀ x ∈ pre, blockResolves Packages x = true) → pre1 = pre ∧ b1 = b ∧ name1 = name) ∧
      scanUnsecurePackages Packages rm audit range FetchCveDetails =
        some ([], some (.packageNotFound name1)) := by
  obtain ⟨pre1, b1, post1, name1, hsplit, hlen, hres, hunk, hfirst⟩ :=
    first_unknown_block Packages pre b post name hpre hb
  refine ⟨pre1, b1, post1, name1, hblocks.trans hsplit, hlen, hres, hunk, hfirst, ?_⟩
  rw [scanUnsecurePackages_of_exit_one Packages rm audit range FetchCveDetails hrm haudit,
    hblocks, hsplit, resolveBlocks_of_unknown Packages pre1 b1 post1 name1 [] hres hunk]

theorem scanUnsecurePackages_unknown_package_witness :
    scanUnsecurePackages (δ := Unit)
        [{ Name := "nginx".toList, Version := "1.10.1".toList, NewVersion := [] }]
        { Stdout := [], ExitStatus := 0 }
        { Stdout := ("nginx-1.10.1 is vulnerable:\nCVE: CVE-1\nWWW: /a.html\n\n" ++
            "foo-1 is vulnerable:\nCVE: CVE-2\nWWW: /b.html\n\nCVE:").toList,
          ExitStatus := 1 }
        insertionOrder (fun _ => .ok []) =
      some ([], some (.packageNotFound "foo".toList)) := by
  obtain ⟨pre1, b1, post1, name1, _, _, _, _, hfirst, hscan⟩ :=
    scanUnsecurePackages_unknown_package (δ := Unit)
      [{ Name := "nginx".toList, Version := "1.10.1".toList, NewVersion := [] }]
      { Stdout := [], ExitStatus := 0 }
      { Stdout := ("nginx-1.10.1 is vulnerable:\nCVE: CVE-1\nWWW: /a.html\n\n" ++
          "foo-1 is vulnerable:\nCVE: CVE-2\nWWW: /b.html\n\nCVE:").toList,
        ExitStatus := 1 }
      insertionOrder (fun _ => .ok [])
      ["nginx-1.10.1 is vulnerable:\nCVE: CVE-1\nWWW: /a.html".toList]
      "foo-1 is vulnerable:\nCVE: CVE-2\nWWW: /b.html".toList ["CVE:".toList] "foo".toList
      (by decide) (by decide) (by decide) (by decide) (by decide)
  rw [hscan, (hfirst (by decide)).2.2]

theorem CveMap.get_append (m : CveMap) (k c : Str) (p : pkgAuditResult) :
    CveMap.get (CveMap.append m k p) c =
      if k = c then CveMap.get m c ++ [p] else CveMap.get m c := by
  induction m with
  | nil =>
    by_cases h : k = c <;> simp [CveMap.get, CveMap.append, h]
  | cons e rest ih =>
    obtain ⟨k1, v⟩ := e
    by_cases h1 : k1 = k
    · subst h1
      by_cases h : k1 = c <;> simp [CveMap.get, CveMap.append, h]
    · by_cases h : k = c
      · subst h
        simp [CveMap.get, CveMap.append, h1, ih]
      · by_cases h2 : k1 = c
        · subst h2
          have h3 : ¬ k = k1 := fun e => h1 e.symm
          simp [CveMap.get, CveMap.append, h1, h3]
        · simp [CveMap.get, CveMap.append, h1, h2, h, ih]

theorem CveMap.get_foldl_append (ids : List Str) (m : CveMap) (c : Str) (p : pkgAuditResult) :
    CveMap.get (ids.foldl (fun m cid => CveMap.append m cid p) m) c =
      CveMap.get m c ++ (ids.filter (fun x => x == c)).map (fun _ => p) := by
  induction ids generalizing m with
  | nil => simp
  | cons k rest ih =>
    rw [List.foldl_cons, ih, CveMap.get_append]
    by_cases h : k = c <;> simp [h]

theorem CveMap.get_foldl_links (links : List pkgAuditResult) (m : CveMap) (c : Str) :
    CveMap.get (links.foldl
        (fun m p => p.vulnIDCveIDs.cveIDs.foldl (fun m cid => CveMap.append m cid p) m) m) c =
      CveMap.get m c ++ linksCarrying c links := by
  induction links generalizing m with
  | nil => simp [linksCarrying]
  | cons p rest ih =>
    rw [List.foldl_cons, ih, CveMap.get_foldl_append]
    simp [linksCarrying]

theorem CveMap.get_buildCveIDAdtMap (links : List pkgAuditResult) (c : Str) :
    CveMap.get (buildCveIDAdtMap links) c = linksCarrying c links := by
  unfold buildCveIDAdtMap
  rw [CveMap.get_foldl_links]
  rfl

theorem buildCvePacksList_eq {δ : Type} (links : List pkgAuditResult)
    (cveDetails : List (CveDetail δ)) :
    buildCvePacksList (buildCveIDAdtMap links) cveDetails =
      cveDetails.map (reportEntry links) := by
  unfold buildCvePacksList reportEntry
  simp only [CveMap.get_buildCveIDAdtMap]

/-- C2: let the audit command end with exit status 1, let every block of its
output resolve in the inventory, and let the lookup return the detail records
`cveDetails` for the identifiers handed to it (the keys of the index, in any
range order). Then the report has one entry per detail record `d`, in order,
with `Packs` the packages of the links of exactly those accepted blocks whose
identifier list contains `d.CveID`, in block order, one per occurrence, and
`DistroAdvisories` the advisory ids of the same links in the same order; the
two lists have the same length. -/
theorem scanUnsecurePackages_entries {δ : Type} (Packages : List PackageInfo)
    (rm audit : sshResult) (range : RangeOrder)
    (FetchCveDetails : List Str → Except Str (List (CveDetail δ)))
    (cveDetails : List (CveDetail δ))
    (hrm : rm.ExitStatus = 0) (haudit : audit.ExitStatus = 1)
    (hres : ∀ b ∈ splitIntoBlocks audit.Stdout, blockResolves Packages b = true)
    (hfetch : FetchCveDetails (range.order (CveMap.keys (buildCveIDAdtMap
        (advisoryLinks Packages (splitIntoBlocks audit.Stdout))))) = .ok cveDetails) :
    scanUnsecurePackages Packages rm audit range FetchCveDetails =
        some (cveDetails.map
          (reportEntry (advisoryLinks Packages (splitIntoBlocks audit.Stdout))), none) ∧
      ∀ d : CveDetail δ,
        (reportEntry (advisoryLinks Packages (splitIntoBlocks audit.Stdout)) d).Packs.length =
          (reportEntry (advisoryLinks Packages
            (splitIntoBlocks audit.Stdout)) d).DistroAdvisories.length := by
  refine ⟨?_, ?_⟩
  · rw [scanUnsecurePackages_of_exit_one Packages rm audit range FetchCveDetails hrm haudit,
      resolveBlocks_of_resolves Packages _ [] hres]
    simp only [List.nil_append, hfetch, buildCvePacksList_eq]
  · intro d
    simp [reportEntry]

theorem scanUnsecurePackages_entries_witness :
    scanUnsecurePackages (δ := Unit)
        [{ Name := "nginx".toList, Version := "1.10.1".toList, NewVersion := [] },
         { Name := "openssl".toList, Version := "1.0.1".toList, NewVersion := [] }]
        { Stdout := [], ExitStatus := 0 }
        { Stdout := ("nginx-1.10.1 is vulnerable:\nCVE: CVE-2016-0001\nWWW: /a.html\n\n" ++
            "openssl-1.0.1 is vulnerable:\nCVE: CVE-2016-0001\nWWW: /b.html\n").toList,
          ExitStatus := 1 }
        insertionOrder (fun ids => .ok (ids.map fun c => { CveID := c, Rest := () })) =
      some ([{ CveID := "CVE-2016-0001".toList
               CveDetail := { CveID := "CVE-2016-0001".toList, Rest := () }
               Packs :=
                 [{ Name := "nginx".toList, Version := "1.10.1".toList, NewVersion := [] },
                  { Name := "openssl".toList, Version := "1.0.1".toList, NewVersion := [] }]
               DistroAdvisories :=
                 [{ AdvisoryID := "a".toList }, { AdvisoryID := "b".toList }] }], none) :=
  (scanUnsecurePackages_entries (δ := Unit)
    [{ Name := "nginx".toList, Version := "1.10.1".toList, NewVersion := [] },
     { Name := "openssl".toList, Version := "1.0.1".toList, NewVersion := [] }]
    { Stdout := [], ExitStatus := 0 }
    { Stdout := ("nginx-1.10.1 is vulnerable:\nCVE: CVE-2016-0001\nWWW: /a.html\n\n" ++
        "openssl-1.0.1 is vulnerable:\nCVE: CVE-2016-0001\nWWW: /b.html\n").toList,
      ExitStatus := 1 }
    insertionOrder (fun ids => .ok (ids.map fun c => { CveID := c, Rest := () }))
    [{ CveID := "CVE-2016-0001".toList, Rest := () }]
    (by decide) (by decide) (by decide) rfl).1.trans (by decide)

/-! ## The keys of the index -/

theorem CveMap.mem_keys_append (m : CveMap) (k c : Str) (p : pkgAuditResult) :
    c ∈ CveMap.keys (CveMap.append m k p) ↔ c = k ∨ c ∈ CveMap.keys m := by
  induction m with
  | nil => simp [CveMap.keys, CveMap.append]
  | cons e rest ih =>
    obtain ⟨k1, v⟩ := e
    simp only [CveMap.keys] at ih
    by_cases h1 : k1 = k
    · subst h1
      simp [CveMap.keys, CveMap.append]
    · simp only [CveMap.keys, CveMap.append, h1, if_false, List.map_cons, List.mem_cons, ih]
      constructor
      · rintro (h | h | h)
        · exact Or.inr (Or.inl h)
        · exact Or.inl h
        · exact Or.inr (Or.inr h)
      · rintro (h | h | h)
        · exact Or.inr (Or.inl h)
        · exact Or.inl h
        · exact Or.inr (Or.inr h)

theorem CveMap.nodup_keys_append (m : CveMap) (k : Str) (p : pkgAuditResult)
    (h : (CveMap.keys m).Nodup) : (CveMap.keys (CveMap.append m k p)).Nodup := by
  induction m with
  | nil => simp [CveMap.keys, CveMap.append]
  | cons e rest ih =>
    obtain ⟨k1, v⟩ := e
    have hcons : (k1 :: CveMap.keys rest).Nodup := h
    rw [List.nodup_cons] at hcons
    by_cases h1 : k1 = k
    · subst h1
      simpa [CveMap.keys, CveMap.append] using h
    · have hmem : k1 ∉ CveMap.keys (CveMap.append rest k p) := by
        rw [CveMap.mem_keys_append]
        rintro (e | e)
        · exact h1 e
        · exact hcons.1 e
      have hnd := ih hcons.2
      have e : CveMap.keys (CveMap.append ((k1, v) :: rest) k p) =
          k1 :: CveMap.keys (CveMap.append rest k p) := by
        simp [CveMap.keys, CveMap.append, h1]
      rw [e, List.nodup_cons]
      exact ⟨hmem, hnd⟩

theorem CveMap.keys_foldl_append (ids : List Str) (m : CveMap) (p : pkgAuditResult) :
    ((CveMap.keys m).Nodup →
        (CveMap.keys (ids.foldl (fun m cid => CveMap.append m cid p) m)).Nodup) ∧
      ∀ c, c ∈ CveMap.keys (ids.foldl (fun m cid => CveMap.append m cid p) m) ↔
        c ∈ ids ∨ c ∈ CveMap.keys m := by
  induction ids generalizing m with
  | nil => simp
  | cons k rest ih =>
    obtain ⟨ih1, ih2⟩ := ih (CveMap.append m k p)
    refine ⟨fun h => ih1 (CveMap.nodup_keys_append m k p h), fun c => ?_⟩
    rw [List.foldl_cons, ih2, CveMap.mem_keys_append, List.mem_cons]
    constructor
    · rintro (h | h | h)
      · exact Or.inl (Or.inr h)
      · exact Or.inl (Or.inl h)
      · exact Or.inr h
    · rintro ((h | h) | h)
      · exact Or.inr (Or.inl h)
      · exact Or.inl h
      · exact Or.inr (Or.inr h)

theorem CveMap.keys_foldl_links (links : List pkgAuditResult) (m : CveMap) :
    ((CveMap.keys m).Nodup →
        (CveMap.keys (links.foldl
          (fun m p => p.vulnIDCveIDs.cveIDs.foldl (fun m cid => CveMap.append m cid p) m)
          m)).Nodup) ∧
      ∀ c, c ∈ CveMap.keys (links.foldl
          (fun m p => p.vulnIDCveIDs.cveIDs.foldl (fun m cid => CveMap.append m cid p) m) m) ↔
        (∃ p ∈ links, c ∈ p.vulnIDCveIDs.cveIDs) ∨ c ∈ CveMap.keys m := by
  induction links generalizing m with
  | nil => simp
  | cons p rest ih =>
    obtain ⟨h1, h2⟩ := CveMap.keys_foldl_append p.vulnIDCveIDs.cveIDs m p
    obtain ⟨ih1, ih2⟩ :=
      ih (p.vulnIDCveIDs.cveIDs.foldl (fun m cid => CveMap.append m cid p) m)
    refine ⟨fun h => ih1 (h1 h), fun c => ?_⟩
    rw [List.foldl_cons, ih2, h2]
    constructor
    · rintro (⟨q, hq, hc⟩ | h | h)
      · exact Or.inl ⟨q, List.mem_cons_of_mem _ hq, hc⟩
      · exact Or.inl ⟨p, List.mem_cons_self _ _, h⟩
      · exact Or.inr h
    · rintro (⟨q, hq, hc⟩ | h)
      · rcases List.mem_cons.mp hq with rfl | hq
        · exact Or.inr (Or.inl hc)
        · exact Or.inl ⟨q, hq, hc⟩
      · exact Or.inr (Or.inr h)

theorem CveMap.nodup_keys_buildCveIDAdtMap (links : List pkgAuditResult) :
    (CveMap.keys (buildCveIDAdtMap links)).Nodup :=
  (CveMap.keys_foldl_links links []).1 List.nodup_nil

theorem CveMap.mem_keys_buildCveIDAdtMap (links : List pkgAuditResult) (c : Str) :
    c ∈ CveMap.keys (buildCveIDAdtMap links) ↔ ∃ p ∈ links, c ∈ p.vulnIDCveIDs.cveIDs := by
  unfold buildCveIDAdtMap
  rw [(CveMap.keys_foldl_links links []).2 c]
  simp [CveMap.keys]

theorem linksCarrying_ne_nil_iff (links : List pkgAuditResult) (c : Str) :
    linksCarrying c links ≠ [] ↔ ∃ p ∈ links, c ∈ p.vulnIDCveIDs.cveIDs := by
  unfold linksCarrying
  rw [Ne, List.flatMap_eq_nil_iff]
  constructor
  · intro h
    by_contra hno
    apply h
    intro p hp
    rw [List.map_eq_nil_iff, List.filter_eq_nil_iff]
    intro x hx hxc
    have e : x = c := by simpa using hxc
    exact hno ⟨p, hp, e ▸ hx⟩
  · rintro ⟨p, hp, hc⟩ h
    have h1 := h p hp
    rw [List.map_eq_nil_iff, List.filter_eq_nil_iff] at h1
    exact h1 c hc (by simp)

theorem mem_advisoryLinks (Packages : List PackageInfo) (blocks : List Str)
    (p : pkgAuditResult) :
    p ∈ advisoryLinks Packages blocks ↔
      ∃ b ∈ blocks, ∃ r pack, parseBlock b = some r ∧ r.cveIDs ≠ [] ∧
        FindByName Packages r.packName = some pack ∧
        p = { pack := pack, vulnIDCveIDs := { vulnID := r.vulnID, cveIDs := r.cveIDs } } := by
  unfold advisoryLinks
  rw [List.mem_filterMap]
  constructor
  · rintro ⟨b, hb, h⟩
    cases hr : parseBlock b with
    | none => rw [hr] at h; simp at h
    | some r =>
      rw [hr] at h
      by_cases he : r.cveIDs = []
      · simp [he] at h
      · simp only [he, if_false, Option.map_eq_some'] at h
        obtain ⟨pack, hpack, hp⟩ := h
        exact ⟨b, hb, r, pack, hr, he, hpack, hp.symm⟩
  · rintro ⟨b, hb, r, pack, hr, he, hpack, hp⟩
    refine ⟨b, hb, ?_⟩
    simp only [hr, he, if_false, hpack, Option.map_some', hp]

/-! ## Claims on the report of `scanUnsecurePackages` -/

theorem scanUnsecurePackages_of_resolves {δ : Type} (Packages : List PackageInfo)
    (rm audit : sshResult) (range : RangeOrder)
    (FetchCveDetails : List Str → Except Str (List (CveDetail δ)))
    (hrm : rm.ExitStatus = 0) (haudit : audit.ExitStatus = 1)
    (hres : ∀ b ∈ splitIntoBlocks audit.Stdout, blockResolves Packages b = true) :
    scanUnsecurePackages Packages rm audit range FetchCveDetails =
      match FetchCveDetails (range.order (CveMap.keys (cveIndex Packages audit))) with
      | .error msg => some ([], some (.lookupFailed msg))
      | .ok cveDetails =>
        some (cveDetails.map
          (reportEntry (advisoryLinks Packages (splitIntoBlocks audit.Stdout))), none) := by
  rw [scanUnsecurePackages_of_exit_one Packages rm audit range FetchCveDetails hrm haudit,
    resolveBlocks_of_resolves Packages _ [] hres]
  simp only [List.nil_append, buildCvePacksList_eq, cveIndex]

theorem reportEntry_key_iff {δ : Type} (links : List pkgAuditResult) (d : CveDetail δ) :
    (reportEntry links d).CveID ∈ CveMap.keys (buildCveIDAdtMap links) ↔
      (reportEntry links d).Packs ≠ [] := by
  rw [CveMap.mem_keys_buildCveIDAdtMap, ← linksCarrying_ne_nil_iff]
  simp [reportEntry]

/-- C11, as stated, fails: with the example inventory and audit output (all
blocks resolve, the keys of the index are CVE-2016-0001 and CVE-2016-0002), a
lookup that returns twice a record for CVE-2016-9999 yields two entries for
that identifier, which is not a key of the index, each with no affected
package. -/
theorem scanUnsecurePackages_entry_without_key :
    (∀ b ∈ splitIntoBlocks exampleAudit.Stdout, blockResolves exampleInventory b = true) ∧
    CveMap.keys (cveIndex exampleInventory exampleAudit) =
      ["CVE-2016-0001".toList, "CVE-2016-0002".toList] ∧
    scanUnsecurePackages (δ := Unit) exampleInventory exampleRm exampleAudit insertionOrder
        (fun _ => .ok [{ CveID := "CVE-2016-9999".toList, Rest := () },
                       { CveID := "CVE-2016-9999".toList, Rest := () }]) =
      some ([{ CveID := "CVE-2016-9999".toList
               CveDetail := { CveID := "CVE-2016-9999".toList, Rest := () }
               Packs := []
               DistroAdvisories := [] },
             { CveID := "CVE-2016-9999".toList
               CveDetail := { CveID := "CVE-2016-9999".toList, Rest := () }
               Packs := []
               DistroAdvisories := [] }], none) := by
  decide

/-- C11, amended: when all blocks resolve and the lookup returns the records
`cveDetails`, the report has exactly one entry per returned record, in the
order returned; an entry has at least one affected package exactly when its
identifier is a key of the index. Hence, when the lookup returns only
identifiers that were handed to it and none twice, every entry's identifier
is a key of the index, every entry has an affected package and no identifier
has two entries. -/
theorem scanUnsecurePackages_entry_per_record {δ : Type} (Packages : List PackageInfo)
    (rm audit : sshResult) (range : RangeOrder)
    (FetchCveDetails : List Str → Except Str (List (CveDetail δ)))
    (cveDetails : List (CveDetail δ))
    (hrm : rm.ExitStatus = 0) (haudit : audit.ExitStatus = 1)
    (hres : ∀ b ∈ splitIntoBlocks audit.Stdout, blockResolves Packages b = true)
    (hfetch : FetchCveDetails (range.order (CveMap.keys (cveIndex Packages audit))) =
      .ok cveDetails) :
    ∃ entries, scanUnsecurePackages Packages rm audit range FetchCveDetails =
        some (entries, none) ∧
      entries.map (fun e => e.CveID) = cveDetails.map (fun d => d.CveID) ∧
      (∀ e ∈ entries, e.CveID ∈ CveMap.keys (cveIndex Packages audit) ↔ e.Packs ≠ []) ∧
      ((∀ d ∈ cveDetails, d.CveID ∈ range.order (CveMap.keys (cveIndex Packages audit))) →
        (cveDetails.map (fun d => d.CveID)).Nodup →
        (∀ e ∈ entries, e.CveID ∈ CveMap.keys (cveIndex Packages audit) ∧ e.Packs ≠ []) ∧
          (entries.map (fun e => e.CveID)).Nodup) := by
  have hscan := scanUnsecurePackages_of_resolves Packages rm audit range FetchCveDetails
    hrm haudit hres
  rw [hfetch] at hscan
  have hids : (cveDetails.map
      (reportEntry (advisoryLinks Packages (splitIntoBlocks audit.Stdout)))).map
        (fun e => e.CveID) = cveDetails.map (fun d => d.CveID) := by
    rw [List.map_map]
    rfl
  have hkey : ∀ e ∈ cveDetails.map
      (reportEntry (advisoryLinks Packages (splitIntoBlocks audit.Stdout))),
      e.CveID ∈ CveMap.keys (cveIndex Packages audit) ↔ e.Packs ≠ [] := by
    intro e he
    obtain ⟨d, _, rfl⟩ := List.mem_map.mp he
    exact reportEntry_key_iff _ d
  refine ⟨_, hscan, hids, hkey, ?_⟩
  intro hsub hnd
  refine ⟨?_, by rw [hids]; exact hnd⟩
  intro e he
  have hk : e.CveID ∈ CveMap.keys (cveIndex Packages audit) := by
    obtain ⟨d, hd, rfl⟩ := List.mem_map.mp he
    exact (range.perm _).mem_iff.mp (hsub d hd)
  exact ⟨hk, (hkey e he).mp hk⟩

theorem scanUnsecurePackages_entry_per_record_witness :
    ∃ entries, scanUnsecurePackages (δ := Unit) exampleInventory exampleRm exampleAudit
        insertionOrder (fun ids => .ok (ids.map fun c => { CveID := c, Rest := () })) =
        some (entries, none) ∧
      entries.map (fun e => e.CveID) = ["CVE-2016-0001".toList, "CVE-2016-0002".toList] ∧
      (∀ e ∈ entries, e.CveID ∈ CveMap.keys (cveIndex exampleInventory exampleAudit) ∧
        e.Packs ≠ []) ∧
      (entries.map (fun e => e.CveID)).Nodup := by
  obtain ⟨entries, hscan, hids, _, h⟩ :=
    scanUnsecurePackages_entry_per_record (δ := Unit) exampleInventory exampleRm exampleAudit
      insertionOrder (fun ids => .ok (ids.map fun c => { CveID := c, Rest := () }))
      [{ CveID := "CVE-2016-0001".toList, Rest := () },
       { CveID := "CVE-2016-0002".toList, Rest := () }]
      (by decide) (by decide) (by decide) rfl
  have h1 := h (by decide) (by decide)
  exact ⟨entries, hscan, hids, h1.1, h1.2⟩

/-- C12: when all blocks resolve and the lookup returns the records
`cveDetails`, none of them for the identifier `c` (a key of the index or
not), the scan succeeds without error, no report entry has the identifier
`c`, and the entries are in the order of the returned records, each carrying
its detail record unchanged. -/
theorem scanUnsecurePackages_omits_undetailed {δ : Type} (Packages : List PackageInfo)
    (rm audit : sshResult) (range : RangeOrder)
    (FetchCveDetails : List Str → Except Str (List (CveDetail δ)))
    (cveDetails : List (CveDetail δ)) (c : Str)
    (hrm : rm.ExitStatus = 0) (haudit : audit.ExitStatus = 1)
    (hres : ∀ b ∈ splitIntoBlocks audit.Stdout, blockResolves Packages b = true)
    (hfetch : FetchCveDetails (range.order (CveMap.keys (cveIndex Packages audit))) =
      .ok cveDetails)
    (hc : ∀ d ∈ cveDetails, d.CveID ≠ c) :
    ∃ entries, scanUnsecurePackages Packages rm audit range FetchCveDetails =
        some (entries, none) ∧
      (∀ e ∈ entries, e.CveID ≠ c) ∧
      entries.map (fun e => e.CveDetail) = cveDetails ∧
      entries.map (fun e => e.CveID) = cveDetails.map (fun d => d.CveID) := by
  have hscan := scanUnsecurePackages_of_resolves Packages rm audit range FetchCveDetails
    hrm haudit hres
  rw [hfetch] at hscan
  refine ⟨_, hscan, ?_, ?_, ?_⟩
  · intro e he
    obtain ⟨d, hd, rfl⟩ := List.mem_map.mp he
    exact hc d hd
  · rw [List.map_map]
    exact List.map_id'' (fun _ => rfl) cveDetails
  · rw [List.map_map]
    rfl

theorem scanUnsecurePackages_omits_undetailed_witness :
    "CVE-2016-0002".toList ∈ CveMap.keys (cveIndex exampleInventory exampleAudit) ∧
    ∃ entries, scanUnsecurePackages (δ := Unit) exampleInventory exampleRm exampleAudit
        insertionOrder (fun _ => .ok [{ CveID := "CVE-2016-0001".toList, Rest := () }]) =
        some (entries, none) ∧
      (∀ e ∈ entries, e.CveID ≠ "CVE-2016-0002".toList) ∧
      entries.map (fun e => e.CveDetail) = [{ CveID := "CVE-2016-0001".toList, Rest := () }] ∧
      entries.map (fun e => e.CveID) = ["CVE-2016-0001".toList] :=
  ⟨by decide,
    scanUnsecurePackages_omits_undetailed (δ := Unit) exampleInventory exampleRm exampleAudit
      insertionOrder (fun _ => .ok [{ CveID := "CVE-2016-0001".toList, Rest := () }])
      [{ CveID := "CVE-2016-0001".toList, Rest := () }] "CVE-2016-0002".toList
      (by decide) (by decide) (by decide) rfl (by decide)⟩

/-- C13: when all blocks resolve, the list of identifiers handed to the
detail lookup (the report depends on the lookup only through its answer to
that list) has no duplicates; an identifier is in it exactly when it occurs
in the identifier list of some block of the audit output, that is, exactly
when it is a key of the index; and every key of the index has a non-empty
list of links. -/
theorem scanUnsecurePackages_lookup_ids {δ : Type} (Packages : List PackageInfo)
    (rm audit : sshResult) (range : RangeOrder)
    (FetchCveDetails : List Str → Except Str (List (CveDetail δ)))
    (hrm : rm.ExitStatus = 0) (haudit : audit.ExitStatus = 1)
    (hres : ∀ b ∈ splitIntoBlocks audit.Stdout, blockResolves Packages b = true) :
    (scanUnsecurePackages Packages rm audit range FetchCveDetails =
      match FetchCveDetails (range.order (CveMap.keys (cveIndex Packages audit))) with
      | .error msg => some ([], some (.lookupFailed msg))
      | .ok cveDetails =>
        some (cveDetails.map
          (reportEntry (advisoryLinks Packages (splitIntoBlocks audit.Stdout))), none)) ∧
    (range.order (CveMap.keys (cveIndex Packages audit))).Nodup ∧
    (∀ c, c ∈ range.order (CveMap.keys (cveIndex Packages audit)) ↔
      ∃ b ∈ splitIntoBlocks audit.Stdout, ∃ r, parseBlock b = some r ∧ c ∈ r.cveIDs) ∧
    (∀ c, c ∈ range.order (CveMap.keys (cveIndex Packages audit)) ↔
      c ∈ CveMap.keys (cveIndex Packages audit)) ∧
    (∀ c ∈ CveMap.keys (cveIndex Packages audit),
      CveMap.get (cveIndex Packages audit) c ≠ []) := by
  have hperm := range.perm (CveMap.keys (cveIndex Packages audit))
  refine ⟨scanUnsecurePackages_of_resolves Packages rm audit range FetchCveDetails
    hrm haudit hres, ?_, ?_, fun c => hperm.mem_iff, ?_⟩
  · exact hperm.nodup_iff.mpr (CveMap.nodup_keys_buildCveIDAdtMap _)
  · intro c
    rw [hperm.mem_iff]
    unfold cveIndex
    rw [CveMap.mem_keys_buildCveIDAdtMap]
    constructor
    · rintro ⟨p, hp, hc⟩
      obtain ⟨b, hb, r, pack, hr, _, _, rfl⟩ := (mem_advisoryLinks _ _ p).mp hp
      exact ⟨b, hb, r, hr, hc⟩
    · rintro ⟨b, hb, r, hr, hc⟩
      obtain ⟨r1, hr1, hcase⟩ := (blockResolves_iff Packages b).mp (hres b hb)
      rw [hr] at hr1
      cases hr1
      have hne : r.cveIDs ≠ [] := List.ne_nil_of_mem hc
      rcases hcase with hcase | ⟨pack, hpack⟩
      · exact absurd hcase hne
      · exact ⟨_, (mem_advisoryLinks _ _ _).mpr ⟨b, hb, r, pack, hr, hne, hpack, rfl⟩, hc⟩
  · intro c hc
    unfold cveIndex at hc ⊢
    rw [CveMap.get_buildCveIDAdtMap, linksCarrying_ne_nil_iff,
      ← CveMap.mem_keys_buildCveIDAdtMap]
    exact hc

theorem scanUnsecurePackages_lookup_ids_witness :
    insertionOrder.order (CveMap.keys (cveIndex exampleInventory exampleAudit)) =
      ["CVE-2016-0001".toList, "CVE-2016-0002".toList] ∧
    (insertionOrder.order (CveMap.keys (cveIndex exampleInventory exampleAudit))).Nodup :=
  ⟨by decide,
    (scanUnsecurePackages_lookup_ids (δ := Unit) exampleInventory exampleRm exampleAudit
      insertionOrder (fun _ => .ok []) (by decide) (by decide) (by decide)).2.1⟩

/-! ## Well-formed blocks -/

theorem TrimSpace_idempotent (s : Str) : TrimSpace (TrimSpace s) = TrimSpace s := by
  have e : ∀ x : Str, TrimSpace x = (x.dropWhile isSpace).rdropWhile isSpace := fun _ => rfl
  have h1 : (TrimSpace s).dropWhile isSpace = TrimSpace s := by
    rw [e]
    have hpre := List.rdropWhile_prefix isSpace (s.dropWhile isSpace)
    cases ht : (s.dropWhile isSpace).rdropWhile isSpace with
    | nil => rfl
    | cons a t =>
      rw [ht] at hpre
      obtain ⟨r, hr⟩ := hpre
      have hh := List.head?_dropWhile_not isSpace s
      rw [← hr] at hh
      have ha : isSpace a = false := by simpa using hh
      simp [List.dropWhile_cons, ha]
  rw [e (TrimSpace s), h1, e s, List.rdropWhile_idempotent]

theorem Join_ne_nil (x : Str) (rest : List Str) (sep : Str) (hx : x ≠ []) :
    Join (x :: rest) sep ≠ [] := by
  cases rest with
  | nil => exact hx
  | cons y r =>
    rw [Join_cons_cons]
    intro h
    exact hx (List.append_eq_nil.mp (List.append_eq_nil.mp h).1).1

theorem nonBlankRuns_lines (stdout : Str) :
    ∀ g ∈ nonBlankRuns stdout, g ≠ [] ∧ ∀ l ∈ g, l ≠ [] ∧ '\n' ∉ l ∧ TrimSpace l = l := by
  intro g hg
  have hw := nonBlankRuns_wellformed stdout g hg
  refine ⟨hw.1, fun l hl => ⟨(hw.2 l hl).1, (hw.2 l hl).2, ?_⟩⟩
  unfold nonBlankRuns at hg
  rw [List.mem_filter] at hg
  have h1 := (mem_splitAt _ _ g hg.1 l hl).1
  obtain ⟨raw, _, rfl⟩ := List.mem_map.mp h1
  exact TrimSpace_idempotent raw

theorem splitIntoBlocks_join_lines (blocks : List (List Str))
    (h : ∀ B ∈ blocks, B ≠ [] ∧ ∀ l ∈ B, l ≠ [] ∧ '\n' ∉ l ∧ TrimSpace l = l) :
    splitIntoBlocks (Join (blocks.map (fun B => Join B "\n".toList)) "\n\n".toList) =
      blocks.map (fun B => Join B "\n".toList) := by
  unfold splitIntoBlocks
  rw [Split_Join_blocks blocks h, flushBlock_foldl_blankSeparatedLines blocks [] h,
    List.nil_append]

theorem exists_lines_of_blocks (stdout : Str) (bs : List Str)
    (hsub : ∀ b ∈ bs, b ∈ splitIntoBlocks stdout) :
    ∃ gs : List (List Str),
      (∀ B ∈ gs, B ≠ [] ∧ ∀ l ∈ B, l ≠ [] ∧ '\n' ∉ l ∧ TrimSpace l = l) ∧
      bs = gs.map (fun B => Join B "\n".toList) := by
  induction bs with
  | nil => exact ⟨[], by simp, rfl⟩
  | cons b rest ih =>
    obtain ⟨gs, hgs, hrest⟩ := ih (fun x hx => hsub x (by simp [hx]))
    have hb := hsub b (by simp)
    rw [splitIntoBlocks_eq_runs, List.mem_map] at hb
    obtain ⟨g, hg, rfl⟩ := hb
    refine ⟨g :: gs, ?_, by rw [hrest]; rfl⟩
    intro B hB
    rcases List.mem_cons.mp hB with rfl | hB
    · exact nonBlankRuns_lines stdout _ hg
    · exact hgs B hB

theorem splitIntoBlocks_join_blocks (stdout : Str) (bs : List Str)
    (hsub : ∀ b ∈ bs, b ∈ splitIntoBlocks stdout) :
    splitIntoBlocks (Join bs "\n\n".toList) = bs := by
  obtain ⟨gs, hgs, rfl⟩ := exists_lines_of_blocks stdout bs hsub
  exact splitIntoBlocks_join_lines gs hgs

/-- C20: every block returned by `splitIntoBlocks`, for every input, is well
formed: it is non-empty and each of its lines is non-empty, is not blank
(its trim is non-empty) and equals its own whitespace-trim; splitting a
returned block `b` gives `[b]`, and splitting the returned blocks joined with
a blank line between them returns the same blocks. -/
theorem splitIntoBlocks_wellformed (stdout : Str) :
    (∀ b ∈ splitIntoBlocks stdout,
      b ≠ [] ∧
      (∀ l ∈ Split b '\n', l ≠ [] ∧ TrimSpace l ≠ [] ∧ TrimSpace l = l) ∧
      splitIntoBlocks b = [b]) ∧
    splitIntoBlocks (Join (splitIntoBlocks stdout) "\n\n".toList) = splitIntoBlocks stdout := by
  refine ⟨?_, splitIntoBlocks_join_blocks stdout _ (fun _ hb => hb)⟩
  intro b hb
  have hself : splitIntoBlocks (Join [b] "\n\n".toList) = [b] :=
    splitIntoBlocks_join_blocks stdout [b] (fun x hx => by
      rw [List.mem_singleton] at hx
      rw [hx]
      exact hb)
  rw [splitIntoBlocks_eq_runs, List.mem_map] at hb
  obtain ⟨g, hg, rfl⟩ := hb
  have hw := nonBlankRuns_lines stdout g hg
  refine ⟨?_, ?_, hself⟩
  · cases g with
    | nil => exact absurd rfl hw.1
    | cons x rest => exact Join_ne_nil x rest _ (hw.2 x (by simp)).1
  · intro l hl
    have hs : Split (Join g "\n".toList) '\n' = g :=
      Split_Join g '\n' hw.1 (fun x hx => (hw.2 x hx).2.1)
    rw [hs] at hl
    have h3 := hw.2 l hl
    refine ⟨h3.1, ?_, h3.2.2⟩
    rw [h3.2.2]
    exact h3.1

/-! ## Blocks without identifiers -/

theorem resolveBlocks_remove_skipped (Packages : List PackageInfo) (pre : List Str) (b : Str)
    (post : List Str) (r : BlockResult) (acc : List pkgAuditResult)
    (hr : parseBlock b = some r) (he : r.cveIDs = []) :
    resolveBlocks Packages (pre ++ b :: post) acc = resolveBlocks Packages (pre ++ post) acc := by
  induction pre generalizing acc with
  | nil => exact resolveBlocks_cons_skip Packages b post acc r hr he
  | cons x rest ih =>
    rw [List.cons_append, List.cons_append]
    cases hx : parseBlock x with
    | none => simp only [resolveBlocks, hx]
    | some rx =>
      by_cases hex : rx.cveIDs = []
      · rw [resolveBlocks_cons_skip Packages x _ acc rx hx hex,
          resolveBlocks_cons_skip Packages x _ acc rx hx hex, ih]
      · cases hf : FindByName Packages rx.packName with
        | none =>
          rw [resolveBlocks_cons_unknown Packages x _ acc rx hx hex hf,
            resolveBlocks_cons_unknown Packages x _ acc rx hx hex hf]
        | some pack =>
          rw [resolveBlocks_cons_found Packages x _ acc rx pack hx hex hf,
            resolveBlocks_cons_found Packages x _ acc rx pack hx hex hf, ih]

theorem advisoryLinks_remove_skipped (Packages : List PackageInfo) (pre : List Str) (b : Str)
    (post : List Str) (r : BlockResult) (hr : parseBlock b = some r) (he : r.cveIDs = []) :
    advisoryLinks Packages (pre ++ b :: post) = advisoryLinks Packages (pre ++ post) := by
  have h1 := advisoryLinks_cons_skip Packages b post r hr he
  unfold advisoryLinks at h1 ⊢
  rw [List.filterMap_append, List.filterMap_append, h1]

/-- C14: let the audit command end with exit status 1 and let a block `b` of
its output parse to an empty identifier list. Then `b` gives no link, it is
not an unknown-package block whatever its package name is, and the scan
returns the same result as for every audit output (exit status 1) whose
blocks are those of the given output with `b` removed; the remaining blocks
joined with a blank line between them are such an output. -/
theorem scanUnsecurePackages_discards_empty_block {δ : Type} (Packages : List PackageInfo)
    (rm audit : sshResult) (range : RangeOrder)
    (FetchCveDetails : List Str → Except Str (List (CveDetail δ)))
    (pre : List Str) (b : Str) (post : List Str) (r : BlockResult)
    (haudit : audit.ExitStatus = 1)
    (hblocks : splitIntoBlocks audit.Stdout = pre ++ b :: post)
    (hr : parseBlock b = some r) (he : r.cveIDs = []) :
    advisoryLinks Packages (pre ++ b :: post) = advisoryLinks Packages (pre ++ post) ∧
    (∀ name, blockUnknown Packages b name = false) ∧
    (∀ audit2 : sshResult, audit2.ExitStatus = 1 →
      splitIntoBlocks audit2.Stdout = pre ++ post →
      scanUnsecurePackages Packages rm audit range FetchCveDetails =
        scanUnsecurePackages Packages rm audit2 range FetchCveDetails) ∧
    splitIntoBlocks (Join (pre ++ post) "\n\n".toList) = pre ++ post := by
  refine ⟨advisoryLinks_remove_skipped Packages pre b post r hr he, ?_, ?_, ?_⟩
  · intro name
    simp [blockUnknown, hr, he]
  · intro audit2 hstatus hblocks2
    simp [scanUnsecurePackages, sshResult.isSuccess, haudit, hstatus, hblocks, hblocks2,
      resolveBlocks_remove_skipped Packages pre b post r [] hr he]
  · apply splitIntoBlocks_join_blocks audit.Stdout
    intro x hx
    rw [hblocks]
    rcases List.mem_append.mp hx with h | h
    · exact List.mem_append_left _ h
    · exact List.mem_append_right _ (List.mem_cons_of_mem _ h)

theorem scanUnsecurePackages_discards_empty_block_witness :
    scanUnsecurePackages (δ := Unit) exampleInventory exampleRm
        { Stdout := ("nginx-1.10.1 is vulnerable:\nCVE: CVE-2016-0001\nWWW: /a.html\n\n" ++
            "ghost-1.0 is vulnerable:\nWWW: /c.html").toList, ExitStatus := 1 }
        insertionOrder (fun ids => .ok (ids.map fun c => { CveID := c, Rest := () })) =
      scanUnsecurePackages (δ := Unit) exampleInventory exampleRm
        { Stdout := "nginx-1.10.1 is vulnerable:\nCVE: CVE-2016-0001\nWWW: /a.html".toList,
          ExitStatus := 1 }
        insertionOrder (fun ids => .ok (ids.map fun c => { CveID := c, Rest := () })) :=
  (scanUnsecurePackages_discards_empty_block (δ := Unit) exampleInventory exampleRm
    { Stdout := ("nginx-1.10.1 is vulnerable:\nCVE: CVE-2016-0001\nWWW: /a.html\n\n" ++
        "ghost-1.0 is vulnerable:\nWWW: /c.html").toList, ExitStatus := 1 }
    insertionOrder (fun ids => .ok (ids.map fun c => { CveID := c, Rest := () }))
    ["nginx-1.10.1 is vulnerable:\nCVE: CVE-2016-0001\nWWW: /a.html".toList]
    "ghost-1.0 is vulnerable:\nWWW: /c.html".toList []
    { packName := "ghost".toList, cveIDs := [], vulnID := "c".toList }
    rfl (by decide) (by decide) rfl).2.2.1
    { Stdout := "nginx-1.10.1 is vulnerable:\nCVE: CVE-2016-0001\nWWW: /a.html".toList,
      ExitStatus := 1 } rfl (by decide)

/-! ## `parsePkgVersion` line by line -/

theorem parsePkgVersionStep_short (packs : List PackageInfo) (l : Str)
    (h : (Fields l).length < 2) : parsePkgVersionStep packs l = some packs := by
  simp only [parsePkgVersionStep, h, if_true]

theorem parsePkgVersionStep_other (packs : List PackageInfo) (l f0 m : Str)
    (h0 : (Fields l)[0]? = some f0) (h1 : (Fields l)[1]? = some m)
    (hm : m ≠ "?".toList ∧ m ≠ "=".toList ∧ m ≠ "<".toList) :
    parsePkgVersionStep packs l = some packs := by
  have hlen : ¬ (Fields l).length < 2 :=
    Nat.not_lt.mpr (lt_length_of_getElem_some _ _ _ h1)
  have hm1 : ¬ (m = "?".toList ∨ m = "=".toList) := fun h => h.elim hm.1 hm.2.1
  simp only [parsePkgVersionStep, hlen, if_false, h0, h1, Option.bind_eq_bind,
    Option.some_bind, indexLast_eq _ (Split_ne_nil f0 '-'), sliceInit_eq _ (Split_ne_nil f0 '-'),
    hm1, hm.2.2]

theorem parsePkgVersionStep_update_short (packs : List PackageInfo) (l f0 : Str)
    (h0 : (Fields l)[0]? = some f0) (h1 : (Fields l)[1]? = some "<".toList)
    (h6 : (Fields l)[6]? = none) :
    parsePkgVersionStep packs l = none := by
  have hlen : ¬ (Fields l).length < 2 :=
    Nat.not_lt.mpr (lt_length_of_getElem_some _ _ _ h1)
  have hm1 : ¬ ("<".toList = "?".toList ∨ "<".toList = "=".toList) := by decide
  simp only [parsePkgVersionStep, hlen, if_false, h0, h1, h6, Option.bind_eq_bind,
    Option.some_bind, Option.none_bind, indexLast_eq _ (Split_ne_nil f0 '-'),
    sliceInit_eq _ (Split_ne_nil f0 '-'), hm1, if_true]

theorem exists_first_two_fields (l : Str) (h : ¬ (Fields l).length < 2) :
    ∃ f0 m, (Fields l)[0]? = some f0 ∧ (Fields l)[1]? = some m := by
  cases hf : Fields l with
  | nil => rw [hf] at h; simp at h
  | cons a rest =>
    cases rest with
    | nil => rw [hf] at h; simp at h
    | cons b rest1 => exact ⟨a, b, by simp, by simp⟩

/-- The ways one line can be treated by `parsePkgVersion`. -/
theorem parsePkgVersionStep_cases (packs : List PackageInfo) (l : Str) :
    (parsePkgVersionStep packs l = some packs ∧
      ((Fields l).length < 2 ∨
        ∃ m, (Fields l)[1]? = some m ∧ m ≠ "?".toList ∧ m ≠ "=".toList ∧ m ≠ "<".toList)) ∨
    (∃ f0 m nv, (Fields l)[0]? = some f0 ∧ (Fields l)[1]? = some m ∧
      (m = "?".toList ∨ m = "=".toList ∨ (m = "<".toList ∧ 7 ≤ (Fields l).length)) ∧
      parsePkgVersionStep packs l =
        some (packs ++ [{ Name := Join (Split f0 '-').dropLast "-".toList
                          Version := (Split f0 '-').getLastD []
                          NewVersion := nv }])) ∨
    (parsePkgVersionStep packs l = none ∧ (Fields l)[1]? = some "<".toList ∧
      (Fields l).length < 7) := by
  by_cases hlen : (Fields l).length < 2
  · exact Or.inl ⟨parsePkgVersionStep_short packs l hlen, Or.inl hlen⟩
  · obtain ⟨f0, m, h0, h1⟩ := exists_first_two_fields l hlen
    by_cases hq : m = "?".toList
    · exact Or.inr (Or.inl ⟨f0, m, [], h0, h1, Or.inl hq,
        parsePkgVersionStep_current packs l f0 m h0 h1 (Or.inr hq)⟩)
    · by_cases heq : m = "=".toList
      · exact Or.inr (Or.inl ⟨f0, m, [], h0, h1, Or.inr (Or.inl heq),
          parsePkgVersionStep_current packs l f0 m h0 h1 (Or.inl heq)⟩)
      · by_cases hlt : m = "<".toList
        · subst hlt
          cases h6 : (Fields l)[6]? with
          | none =>
            refine Or.inr (Or.inr ⟨parsePkgVersionStep_update_short packs l f0 h0 h1 h6, h1, ?_⟩)
            by_contra hge
            rw [List.getElem?_eq_getElem (by omega)] at h6
            exact Option.noConfusion h6
          | some f6 =>
            exact Or.inr (Or.inl ⟨f0, _, _, h0, h1,
              Or.inr (Or.inr ⟨rfl, lt_length_of_getElem_some _ _ _ h6⟩),
              parsePkgVersionStep_update packs l f0 f6 h0 h1 h6⟩)
        · exact Or.inl ⟨parsePkgVersionStep_other packs l f0 m h0 h1 ⟨hq, heq, hlt⟩,
            Or.inr ⟨m, h1, hq, heq, hlt⟩⟩

theorem parsePkgVersionStep_append (packs : List PackageInfo) (l : Str) :
    parsePkgVersionStep packs l = (parsePkgVersionStep [] l).map (fun rs => packs ++ rs) := by
  rcases parsePkgVersionStep_cases [] l with ⟨h, hc⟩ | ⟨f0, m, nv, h0, h1, hm, h⟩ | ⟨h, h1, h6⟩
  · rw [h]
    rcases hc with hc | ⟨m, h1, hm⟩
    · simp [parsePkgVersionStep_short packs l hc]
    · have hlen : ¬ (Fields l).length < 2 :=
        Nat.not_lt.mpr (lt_length_of_getElem_some _ _ _ h1)
      obtain ⟨f0, m1, h0, h11⟩ := exists_first_two_fields l hlen
      simp [parsePkgVersionStep_other packs l f0 m h0 h1 hm]
  · rw [h]
    rcases parsePkgVersionStep_cases packs l with ⟨_, hc⟩ | ⟨g0, m2, nv2, g0h, g1h, _, h2⟩ |
        ⟨_, g1, g6⟩
    · exfalso
      rcases hc with hc | ⟨m3, h13, hm3⟩
      · exact absurd (lt_length_of_getElem_some _ _ _ h1) (by omega)
      · rw [h1] at h13
        cases h13
        rcases hm with hm | hm | hm
        · exact hm3.1 hm
        · exact hm3.2.1 hm
        · exact hm3.2.2 hm.1
    · rw [h0] at g0h
      cases g0h
      rcases hm with hm | hm | hm
      · rw [parsePkgVersionStep_current packs l f0 m h0 h1 (Or.inr hm)]
        rw [parsePkgVersionStep_current [] l f0 m h0 h1 (Or.inr hm)] at h
        cases h
        rfl
      · rw [parsePkgVersionStep_current packs l f0 m h0 h1 (Or.inl hm)]
        rw [parsePkgVersionStep_current [] l f0 m h0 h1 (Or.inl hm)] at h
        cases h
        rfl
      · obtain ⟨rfl, h7⟩ := hm
        have h6 : (Fields l)[6]? = some (Fields l)[6] := List.getElem?_eq_getElem (by omega)
        rw [parsePkgVersionStep_update packs l f0 _ h0 h1 h6]
        rw [parsePkgVersionStep_update [] l f0 _ h0 h1 h6] at h
        cases h
        rfl
    · exfalso
      rcases hm with hm | hm | hm
      · rw [h1, hm] at g1
        revert g1
        decide
      · rw [h1, hm] at g1
        revert g1
        decide
      · omega
  · rw [h]
    have hlen : ¬ (Fields l).length < 2 :=
      Nat.not_lt.mpr (lt_length_of_getElem_some _ _ _ h1)
    obtain ⟨f0, m1, h0, _⟩ := exists_first_two_fields l hlen
    have h6n : (Fields l)[6]? = none := List.getElem?_eq_none (by omega)
    simp [parsePkgVersionStep_update_short packs l f0 h0 h1 h6n]

theorem foldlM_parsePkgVersionStep (lines : List Str) (acc : List PackageInfo)
    (h : ∀ l ∈ lines, (parsePkgVersionStep [] l).isSome = true) :
    lines.foldlM parsePkgVersionStep acc =
      some (acc ++ lines.flatMap (fun l => (parsePkgVersionStep [] l).getD [])) := by
  induction lines generalizing acc with
  | nil => simp
  | cons l rest ih =>
    obtain ⟨rs, hrs⟩ := Option.isSome_iff_exists.mp (h l (by simp))
    rw [List.foldlM_cons, parsePkgVersionStep_append acc l, hrs]
    simp only [Option.map_some', Option.bind_eq_bind, Option.some_bind]
    rw [ih _ (fun x hx => h x (by simp [hx])), List.flatMap_cons, hrs]
    simp

theorem isSome_of_foldlM_parsePkgVersionStep (lines : List Str) (acc packs : List PackageInfo)
    (h : lines.foldlM parsePkgVersionStep acc = some packs) :
    ∀ l ∈ lines, (parsePkgVersionStep [] l).isSome = true := by
  induction lines generalizing acc with
  | nil => simp
  | cons l rest ih =>
    rw [List.foldlM_cons, parsePkgVersionStep_append acc l] at h
    cases hs : parsePkgVersionStep [] l with
    | none => rw [hs] at h; simp at h
    | some rs =>
      rw [hs] at h
      simp only [Option.map_some', Option.bind_eq_bind, Option.some_bind] at h
      intro x hx
      rcases List.mem_cons.mp hx with rfl | hx
      · rw [hs]; rfl
      · exact ih _ h x hx

theorem not_newline_mem_of_mem_Split (s l : Str) (h : l ∈ Split s '\n') : '\n' ∉ l := by
  intro hm
  have := (mem_splitAt _ _ l h '\n' hm).2
  simp at this

theorem Join_concat (init : List Str) (y sep : Str) (h : init ≠ []) :
    Join (init ++ [y]) sep = Join init sep ++ sep ++ y := by
  induction init with
  | nil => exact absurd rfl h
  | cons x rest ih =>
    cases rest with
    | nil => rfl
    | cons x2 r =>
      have ih1 := ih (by simp)
      rw [List.cons_append, List.cons_append, Join_cons_cons, ← List.cons_append, ih1,
        Join_cons_cons]
      simp only [List.append_assoc]

theorem name_version_of_dash (f : Str) (h : '-' ∈ f) :
    '-' ∉ (Split f '-').getLastD [] ∧
      Join (Split f '-').dropLast "-".toList ++ "-".toList ++ (Split f '-').getLastD [] = f := by
  have hjoin := Join_Split f '-'
  rcases List.eq_nil_or_concat (Split f '-') with hnil | ⟨init, last, hp⟩
  · exact absurd hnil (Split_ne_nil f '-')
  · rw [List.concat_eq_append] at hp
    have hlast : '-' ∉ last := by
      intro hm
      have hmem : last ∈ Split f '-' := by rw [hp]; simp
      have := (mem_splitAt _ _ last hmem '-' hm).2
      simp at this
    rw [hp] at hjoin ⊢
    rw [List.getLastD_concat, List.dropLast_concat]
    refine ⟨hlast, ?_⟩
    have hinit : init ≠ [] := by
      intro e
      rw [e] at hjoin
      have e2 : last = f := hjoin
      exact hlast (e2 ▸ h)
    rw [Join_concat init last ['-'] hinit] at hjoin
    exact hjoin

/-! ## Further claims on `parsePkgVersion` -/

/-- C15, as stated, fails: the seventh whitespace field of the text
"openssl-1.0.1 < needs updating (port has 1.0.2, candidate)" is "1.0.2,"
and not "1.0.2)", and the record returned does not have the candidate version
"1.0.2". -/
theorem parsePkgVersion_example_seventh_field :
    (Fields "openssl-1.0.1 < needs updating (port has 1.0.2, candidate)".toList)[6]? ≠
        some "1.0.2)".toList ∧
      parsePkgVersion "openssl-1.0.1 < needs updating (port has 1.0.2, candidate)".toList ≠
        some [{ Name := "openssl".toList, Version := "1.0.1".toList,
                NewVersion := "1.0.2".toList }] := by
  decide

/-- C15, amended: on the text
"openssl-1.0.1 < needs updating (port has 1.0.2, candidate)" `parsePkgVersion`
returns exactly one record, with name "openssl", version "1.0.1" and
candidate version "1.0.2,", the seventh whitespace field of that text being
"1.0.2," (only a trailing ")" is stripped). On the text
"openssl-1.0.1 < needs updating (port has 1.0.2)", whose seventh field is
"1.0.2)", the candidate version is "1.0.2". -/
theorem parsePkgVersion_example_update :
    (Fields "openssl-1.0.1 < needs updating (port has 1.0.2, candidate)".toList)[6]? =
        some "1.0.2,".toList ∧
      parsePkgVersion "openssl-1.0.1 < needs updating (port has 1.0.2, candidate)".toList =
        some [{ Name := "openssl".toList, Version := "1.0.1".toList,
                NewVersion := "1.0.2,".toList }] ∧
      (Fields "openssl-1.0.1 < needs updating (port has 1.0.2)".toList)[6]? =
        some "1.0.2)".toList ∧
      parsePkgVersion "openssl-1.0.1 < needs updating (port has 1.0.2)".toList =
        some [{ Name := "openssl".toList, Version := "1.0.1".toList,
                NewVersion := "1.0.2".toList }] := by
  decide

/-- C16: every record `p` returned by `parsePkgVersion` comes from one line
`l` of the input (on which alone `parsePkgVersion` returns exactly `p`), and
when the first whitespace field `f` of that line contains a "-", the version
of `p` contains no "-" and name, "-" and version of `p` make up `f`. -/
theorem parsePkgVersion_name_version (stdout : Str) (recs : List PackageInfo)
    (h : parsePkgVersion stdout = some recs) :
    ∀ p ∈ recs, ∃ l ∈ Split stdout '\n', ∃ f, (Fields l)[0]? = some f ∧
      parsePkgVersion l = some [p] ∧
      ('-' ∈ f → '-' ∉ p.Version ∧ p.Name ++ "-".toList ++ p.Version = f) := by
  intro p hp
  unfold parsePkgVersion at h
  have hall := isSome_of_foldlM_parsePkgVersionStep _ _ _ h
  rw [foldlM_parsePkgVersionStep _ [] hall, List.nil_append] at h
  cases h
  obtain ⟨l, hl, hpl⟩ := List.mem_flatMap.mp hp
  have hline := not_newline_mem_of_mem_Split stdout l hl
  rcases parsePkgVersionStep_cases [] l with ⟨hs, _⟩ | ⟨f0, m, nv, h0, _, _, hs⟩ | ⟨hs, _, _⟩
  · rw [hs] at hpl
    simp at hpl
  · rw [hs] at hpl
    simp only [List.nil_append, Option.getD_some, List.mem_singleton] at hpl
    subst hpl
    refine ⟨l, hl, f0, h0, ?_, fun hdash => name_version_of_dash f0 hdash⟩
    rw [parsePkgVersion_of_line l hline, hs]
    rfl
  · rw [hs] at hpl
    simp at hpl

theorem parsePkgVersion_name_version_witness :
    parsePkgVersion "py27-setuptools-1.0 = up-to-date with port".toList =
        some [{ Name := "py27-setuptools".toList, Version := "1.0".toList, NewVersion := [] }] ∧
      '-' ∉ "1.0".toList ∧
      "py27-setuptools".toList ++ "-".toList ++ "1.0".toList = "py27-setuptools-1.0".toList := by
  have hparse : parsePkgVersion "py27-setuptools-1.0 = up-to-date with port".toList =
      some [{ Name := "py27-setuptools".toList, Version := "1.0".toList, NewVersion := [] }] := by
    decide
  obtain ⟨l, hl, f, h0, _, himp⟩ :=
    parsePkgVersion_name_version "py27-setuptools-1.0 = up-to-date with port".toList
      [{ Name := "py27-setuptools".toList, Version := "1.0".toList, NewVersion := [] }] hparse
      { Name := "py27-setuptools".toList, Version := "1.0".toList, NewVersion := [] }
      (List.mem_singleton.mpr rfl)
  have hsplit : Split "py27-setuptools-1.0 = up-to-date with port".toList '\n' =
      ["py27-setuptools-1.0 = up-to-date with port".toList] := by decide
  rw [hsplit, List.mem_singleton] at hl
  subst hl
  have hfield : (Fields "py27-setuptools-1.0 = up-to-date with port".toList)[0]? =
      some "py27-setuptools-1.0".toList := by decide
  rw [hfield] at h0
  cases h0
  exact ⟨hparse, himp (by decide)⟩

/-- C17: for every input in which each line with second field "<" has at
least seven whitespace fields, `parsePkgVersion` returns on every line taken
alone, with at most one record, and with none for a line with fewer than two
fields or with a second field other than "?", "=" and "<"; on the whole input
it returns the concatenation, in line order, of what it returns on the lines;
so an input made only of lines without a record yields the empty list. -/
theorem parsePkgVersion_linewise (stdout : Str)
    (h : ∀ l ∈ Split stdout '\n',
      (Fields l)[1]? = some "<".toList → 7 ≤ (Fields l).length) :
    (∀ l ∈ Split stdout '\n', ∃ rs, parsePkgVersion l = some rs ∧ rs.length ≤ 1 ∧
      (((Fields l).length < 2 ∨
          ∃ m, (Fields l)[1]? = some m ∧ m ≠ "?".toList ∧ m ≠ "=".toList ∧ m ≠ "<".toList) →
        rs = [])) ∧
    parsePkgVersion stdout =
      some ((Split stdout '\n').flatMap (fun l => (parsePkgVersion l).getD [])) ∧
    ((∀ l ∈ Split stdout '\n', (Fields l).length < 2 ∨
        ∃ m, (Fields l)[1]? = some m ∧ m ≠ "?".toList ∧ m ≠ "=".toList ∧ m ≠ "<".toList) →
      parsePkgVersion stdout = some []) := by
  have hline : ∀ l ∈ Split stdout '\n', parsePkgVersion l = parsePkgVersionStep [] l :=
    fun l hl => parsePkgVersion_of_line l (not_newline_mem_of_mem_Split stdout l hl)
  have hlines : ∀ l ∈ Split stdout '\n', ∃ rs, parsePkgVersionStep [] l = some rs ∧
      rs.length ≤ 1 ∧
      (((Fields l).length < 2 ∨
          ∃ m, (Fields l)[1]? = some m ∧ m ≠ "?".toList ∧ m ≠ "=".toList ∧ m ≠ "<".toList) →
        rs = []) := by
    intro l hl
    rcases parsePkgVersionStep_cases [] l with ⟨hs, _⟩ | ⟨f0, m, nv, h0, h1, hm, hs⟩ |
        ⟨_, h1, h6⟩
    · exact ⟨[], hs, by simp, fun _ => rfl⟩
    · refine ⟨_, hs, by simp, ?_⟩
      intro hc
      exfalso
      rcases hc with hc | ⟨m3, h13, hm3⟩
      · exact absurd (lt_length_of_getElem_some _ _ _ h1) (by omega)
      · rw [h1] at h13
        cases h13
        rcases hm with hm | hm | hm
        · exact hm3.1 hm
        · exact hm3.2.1 hm
        · exact hm3.2.2 hm.1
    · exact absurd (h l hl h1) (by omega)
  have hsome : ∀ l ∈ Split stdout '\n', (parsePkgVersionStep [] l).isSome = true := by
    intro l hl
    obtain ⟨rs, hrs, _⟩ := hlines l hl
    rw [hrs]
    rfl
  have hwhole : parsePkgVersion stdout =
      some ((Split stdout '\n').flatMap (fun l => (parsePkgVersion l).getD [])) := by
    unfold parsePkgVersion
    rw [foldlM_parsePkgVersionStep _ [] hsome, List.nil_append]
    congr 1
    simp only [List.flatMap_def]
    congr 1
    apply List.map_congr_left
    intro l hl
    have e := hline l hl
    unfold parsePkgVersion at e
    rw [e]
  refine ⟨?_, hwhole, ?_⟩
  · intro l hl
    rw [hline l hl]
    exact hlines l hl
  · intro hnone
    rw [hwhole]
    congr 1
    rw [List.flatMap_eq_nil_iff]
    intro l hl
    obtain ⟨rs, hrs, _, hempty⟩ := hlines l hl
    rw [hline l hl, hrs, hempty (hnone l hl)]
    rfl

theorem parsePkgVersion_linewise_witness :
    parsePkgVersion ("nginx-1.10.1 = up-to-date with port\nfoo\n" ++
        "openssl-1.0.1 < needs updating (port has 1.0.2)\nbar-1 ! odd\n").toList =
      some [{ Name := "nginx".toList, Version := "1.10.1".toList, NewVersion := [] },
            { Name := "openssl".toList, Version := "1.0.1".toList,
              NewVersion := "1.0.2".toList }] :=
  (parsePkgVersion_linewise ("nginx-1.10.1 = up-to-date with port\nfoo\n" ++
      "openssl-1.0.1 < needs updating (port has 1.0.2)\nbar-1 ! odd\n").toList
    (by decide)).2.1.trans (by decide)

/-! ## The early exit of `scanUnsecurePackages` -/

/-- C18: when the audit command ends with exit status 0 (the cleanup command
having succeeded), `scanUnsecurePackages` returns the empty report and no
error, whatever the output of the command, the inventory, the range order and
the detail lookup are. -/
theorem scanUnsecurePackages_exit_zero {δ : Type} (Packages : List PackageInfo)
    (rm audit : sshResult) (range : RangeOrder)
    (FetchCveDetails : List Str → Except Str (List (CveDetail δ)))
    (hrm : rm.ExitStatus = 0) (haudit : audit.ExitStatus = 0) :
    scanUnsecurePackages Packages rm audit range FetchCveDetails = some ([], none) := by
  simp [scanUnsecurePackages, sshResult.isSuccess, hrm, haudit]

theorem scanUnsecurePackages_exit_zero_witness :
    parseBlock "CVE:".toList = none ∧
    scanUnsecurePackages (δ := Unit) [] exampleRm
        { Stdout := "CVE:".toList, ExitStatus := 0 } insertionOrder
        (fun _ => .error "lookup unreachable".toList) = some ([], none) :=
  ⟨by decide,
    scanUnsecurePackages_exit_zero (δ := Unit) [] exampleRm
      { Stdout := "CVE:".toList, ExitStatus := 0 } insertionOrder
      (fun _ => .error "lookup unreachable".toList) rfl rfl⟩

/-! ## The package names of the two parsers -/

theorem mem_Fields (l f : Str) (h : f ∈ Fields l) :
    f ≠ [] ∧ ∀ c ∈ f, isSpace c = false := by
  unfold Fields at h
  rw [List.mem_filter] at h
  refine ⟨?_, fun c hc => (mem_splitAt isSpace l f h.1 c hc).2⟩
  intro e
  rw [e] at h
  simp at h

theorem parseBlockStep_packName (st st1 : BlockResult) (x : Str)
    (hs : HasSuffix x " is vulnerable:".toList = false)
    (h : parseBlockStep st x = some st1) : st1.packName = st.packName := by
  by_cases hp : HasPrefix x "CVE:".toList = true
  · simp only [parseBlockStep, hs, hp, Bool.false_eq_true, if_false, if_true,
      Option.bind_eq_bind, Option.bind_eq_some] at h
    obtain ⟨cve, _, h2⟩ := h
    cases h2
    rfl
  · rw [Bool.not_eq_true] at hp
    by_cases hw : HasPrefix x "WWW:".toList = true
    · simp only [parseBlockStep, hs, hp, hw, Bool.false_eq_true, if_false, if_true,
        Option.bind_eq_bind, Option.bind_eq_some] at h
      obtain ⟨last, _, h2⟩ := h
      cases h2
      rfl
    · rw [Bool.not_eq_true] at hw
      simp only [parseBlockStep, hs, hp, hw, Bool.false_eq_true, if_false] at h
      cases h
      rfl

theorem foldlM_parseBlockStep_packName_keep (t : Str) (hne : t ≠ [])
    (ht : ∀ c ∈ t, isSpace c = false) (lines : List Str) (st r : BlockResult)
    (honly : ∀ x ∈ lines, HasSuffix x " is vulnerable:".toList = true →
      x = t ++ " is vulnerable:".toList)
    (hst : st.packName = Join (Split t '-').dropLast "-".toList)
    (h : lines.foldlM parseBlockStep st = some r) :
    r.packName = Join (Split t '-').dropLast "-".toList := by
  induction lines generalizing st with
  | nil =>
    simp only [List.foldlM_nil] at h
    cases h
    exact hst
  | cons x rest ih =>
    rw [List.foldlM_cons] at h
    obtain ⟨st1, h1, h2⟩ := Option.bind_eq_some.mp h
    have honly1 := fun y hy => honly y (List.mem_cons_of_mem _ hy)
    by_cases hsx : HasSuffix x " is vulnerable:".toList = true
    · have hx := honly x (List.mem_cons_self _ _) hsx
      rw [hx, parseBlockStep_vulnerable st t hne ht] at h1
      cases h1
      exact ih _ honly1 rfl h2
    · rw [Bool.not_eq_true] at hsx
      exact ih st1 honly1 ((parseBlockStep_packName st st1 x hsx h1).trans hst) h2

theorem foldlM_parseBlockStep_packName (t : Str) (hne : t ≠ [])
    (ht : ∀ c ∈ t, isSpace c = false) (lines : List Str) (st r : BlockResult)
    (hmem : t ++ " is vulnerable:".toList ∈ lines)
    (honly : ∀ x ∈ lines, HasSuffix x " is vulnerable:".toList = true →
      x = t ++ " is vulnerable:".toList)
    (h : lines.foldlM parseBlockStep st = some r) :
    r.packName = Join (Split t '-').dropLast "-".toList := by
  induction lines generalizing st with
  | nil => simp at hmem
  | cons x rest ih =>
    rw [List.foldlM_cons] at h
    obtain ⟨st1, h1, h2⟩ := Option.bind_eq_some.mp h
    have honly1 := fun y hy => honly y (List.mem_cons_of_mem _ hy)
    by_cases hx : x = t ++ " is vulnerable:".toList
    · rw [hx, parseBlockStep_vulnerable st t hne ht] at h1
      cases h1
      exact foldlM_parseBlockStep_packName_keep t hne ht rest _ r honly1 rfl h2
    · rcases List.mem_cons.mp hmem with e | hrest
      · exact absurd e.symm hx
      · exact ih st1 hrest honly1 h2

/-- C19: let the inventory text parse to the records `packs` and have a line
`l` whose first whitespace field is `t` and whose second field is "?", "=" or
"<" (such a line with "<" has at least seven fields, the inventory having
been parsed); let an audit block on which `parseBlock` returns have the line
"t is vulnerable:" as its only line ending in " is vulnerable:". Then the
package name returned by `parseBlock` is the name of the record that
`parsePkgVersion` produced for `l`, that record is in the parsed inventory,
looking the name up there succeeds, and the block is not an unknown-package
block. -/
theorem parsers_agree_on_package_name (inv : Str) (packs : List PackageInfo)
    (l t m block : Str) (r : BlockResult)
    (hinv : parsePkgVersion inv = some packs) (hl : l ∈ Split inv '\n')
    (h0 : (Fields l)[0]? = some t) (h1 : (Fields l)[1]? = some m)
    (hm : m = "?".toList ∨ m = "=".toList ∨ m = "<".toList)
    (hline : t ++ " is vulnerable:".toList ∈ Split block '\n')
    (honly : ∀ x ∈ Split block '\n', HasSuffix x " is vulnerable:".toList = true →
      x = t ++ " is vulnerable:".toList)
    (hr : parseBlock block = some r) :
    ∃ p, parsePkgVersion l = some [p] ∧ p ∈ packs ∧ r.packName = p.Name ∧
      (FindByName packs r.packName).isSome = true ∧
      (∀ name, blockUnknown packs block name = false) ∧
      (m = "<".toList → 7 ≤ (Fields l).length) := by
  have htf := mem_Fields l t (List.getElem?_mem h0)
  have hname : r.packName = Join (Split t '-').dropLast "-".toList :=
    foldlM_parseBlockStep_packName t htf.1 htf.2 (Split block '\n') _ r hline honly hr
  unfold parsePkgVersion at hinv
  have hall := isSome_of_foldlM_parsePkgVersionStep _ _ _ hinv
  rw [foldlM_parsePkgVersionStep _ [] hall, List.nil_append] at hinv
  cases hinv
  have hlsome := hall l hl
  have hlineq := parsePkgVersion_of_line l (not_newline_mem_of_mem_Split inv l hl)
  rcases parsePkgVersionStep_cases [] l with ⟨_, hc⟩ | ⟨f0, m2, nv, g0, g1, hm2, hs⟩ |
      ⟨hs, _, _⟩
  · exfalso
    rcases hc with hc | ⟨m3, h13, hm3⟩
    · exact absurd (lt_length_of_getElem_some _ _ _ h1) (by omega)
    · rw [h1] at h13
      cases h13
      rcases hm with hm | hm | hm
      · exact hm3.1 hm
      · exact hm3.2.1 hm
      · exact hm3.2.2 hm
  · rw [h0] at g0
    cases g0
    rw [h1] at g1
    cases g1
    have hmem : ({ Name := Join (Split t '-').dropLast "-".toList
                   Version := (Split t '-').getLastD []
                   NewVersion := nv } : PackageInfo) ∈
        (Split inv '\n').flatMap (fun l => (parsePkgVersionStep [] l).getD []) := by
      rw [List.mem_flatMap]
      refine ⟨l, hl, ?_⟩
      rw [hs]
      simp
    have hfind : (FindByName ((Split inv '\n').flatMap
        (fun l => (parsePkgVersionStep [] l).getD [])) r.packName).isSome = true := by
      unfold FindByName
      rw [List.find?_isSome]
      exact ⟨_, hmem, by simp [hname]⟩
    refine ⟨_, ?_, hmem, hname, hfind, ?_, ?_⟩
    · rw [hlineq, hs]
      rfl
    · intro name
      unfold blockUnknown
      rw [hr]
      by_cases hn : r.packName = name
      · subst hn
        rw [Option.isSome_iff_exists] at hfind
        obtain ⟨pk, hpk⟩ := hfind
        simp [hpk]
      · simp [hn]
    · intro hlt
      rcases hm2 with hm2 | hm2 | hm2
      · rw [hlt] at hm2
        exact absurd hm2 (by decide)
      · rw [hlt] at hm2
        exact absurd hm2 (by decide)
      · exact hm2.2
  · rw [hs] at hlsome
    simp at hlsome

theorem parsers_agree_on_package_name_witness :
    ∃ p, parsePkgVersion "openssl-1.0.1 = up-to-date with port".toList = some [p] ∧
      p ∈ exampleInventory ∧ "openssl".toList = p.Name ∧
      (FindByName exampleInventory "openssl".toList).isSome = true ∧
      (∀ name, blockUnknown exampleInventory
        "openssl-1.0.1 is vulnerable:\nCVE: CVE-2016-0002\nWWW: /b.html".toList name = false) ∧
      ("=".toList = "<".toList →
        7 ≤ (Fields "openssl-1.0.1 = up-to-date with port".toList).length) :=
  parsers_agree_on_package_name
    ("nginx-1.10.1 = up-to-date with port\n" ++ "openssl-1.0.1 = up-to-date with port").toList
    exampleInventory "openssl-1.0.1 = up-to-date with port".toList "openssl-1.0.1".toList
    "=".toList "openssl-1.0.1 is vulnerable:\nCVE: CVE-2016-0002\nWWW: /b.html".toList
    { packName := "openssl".toList, cveIDs := ["CVE-2016-0002".toList], vulnID := "b".toList }
    (by decide) (by decide) (by decide) (by decide) (by decide) (by decide) (by decide)
    (by decide)

end Vuls
